import Mathlib

/-!
Verification development for the simulation-result reconciliation and
call-hierarchy analysis engine of the `execute-onchain` dashboard.

The TypeScript sources are shallowly embedded:
* JavaScript `Map` objects (insertion ordered, `set` replaces in place)
  become association lists `List (String × α)` with `mapSet` / `alookup`.
* JavaScript `bigint` becomes `ℤ`, JavaScript finite `number` becomes `ℚ`
  (floating point is modelled by exact rationals).
* `undefined` results become `Option`; inside the JSON value model `JVal`
  an explicit `undef` constructor mirrors JavaScript's `undefined`.
* Object references held inside other objects (e.g. child node references
  in the call tree) are modelled as the node's map key; every field read
  through such a reference goes through the node map.
-/

namespace ExecOnchain

/-! ### Association lists modelling JavaScript `Map` and plain objects -/

/-- First-match lookup, like `Map.get` / property access on objects. -/
def alookup {α : Type} : List (String × α) → String → Option α
  | [], _ => none
  | (k, v) :: rest, key => if k = key then some v else alookup rest key

/-- `Map.set` / property assignment: replace the first matching key in
place, otherwise append at the end (JavaScript insertion order). -/
def mapSet {α : Type} : List (String × α) → String → α → List (String × α)
  | [], key, v => [(key, v)]
  | (k, w) :: rest, key, v =>
      if k = key then (key, v) :: rest else (k, w) :: mapSet rest key v

theorem alookup_mapSet_self {α : Type} (m : List (String × α)) (k : String) (v : α) :
    alookup (mapSet m k v) k = some v := by
  induction m with
  | nil => simp [mapSet, alookup]
  | cons hd tl ih =>
      obtain ⟨k', w⟩ := hd
      by_cases h : k' = k
      · simp [mapSet, h, alookup]
      · simp [mapSet, h, alookup, ih]

theorem alookup_mapSet_ne {α : Type} (m : List (String × α)) (k k' : String) (v : α)
    (h : k ≠ k') : alookup (mapSet m k v) k' = alookup m k' := by
  induction m with
  | nil => simp [mapSet, alookup, h]
  | cons hd tl ih =>
      obtain ⟨k'', w⟩ := hd
      by_cases h2 : k'' = k
      · subst h2
        simp [mapSet, alookup, h]
      · simp [mapSet, h2, alookup, ih]

theorem mapSet_alookup_self {α : Type} (m : List (String × α)) (k : String) (v : α)
    (h : alookup m k = some v) : mapSet m k v = m := by
  induction m with
  | nil => simp [alookup] at h
  | cons hd tl ih =>
      obtain ⟨k', w⟩ := hd
      by_cases h2 : k' = k
      · subst h2
        simp [alookup] at h
        simp [mapSet, h]
      · simp [alookup, h2] at h
        simp [mapSet, h2, ih h]

theorem alookup_map_value {α β : Type} (f : α → β) (m : List (String × α)) (k : String) :
    alookup (m.map (fun kv => (kv.1, f kv.2))) k = (alookup m k).map f := by
  induction m with
  | nil => simp [alookup]
  | cons hd tl ih =>
      obtain ⟨k', w⟩ := hd
      by_cases h : k' = k
      · simp [alookup, h]
      · simp [alookup, h, ih]

/-- Keys present in an association list. -/
def akeys {α : Type} (m : List (String × α)) : List String := m.map (·.1)

theorem akeys_mapSet {α : Type} (m : List (String × α)) (k : String) (v : α) :
    akeys (mapSet m k v) = if (alookup m k).isSome then akeys m else akeys m ++ [k] := by
  induction m with
  | nil => simp [mapSet, akeys, alookup]
  | cons hd tl ih =>
      obtain ⟨k', w⟩ := hd
      by_cases h : k' = k
      · subst h
        simp [mapSet, akeys, alookup]
      · simp [mapSet, h, akeys, alookup, h] at ih ⊢
        rw [ih]
        by_cases h2 : (alookup tl k).isSome <;> simp [h2]

theorem alookup_isSome_iff_mem_akeys {α : Type} (m : List (String × α)) (k : String) :
    (alookup m k).isSome ↔ k ∈ akeys m := by
  induction m with
  | nil => simp [alookup, akeys]
  | cons hd tl ih =>
      obtain ⟨k', w⟩ := hd
      by_cases h : k' = k
      · simp [alookup, akeys, h]
      · simp [alookup, akeys, h, ih, Ne.symm h]

theorem alookup_eq_none_of_not_mem {α : Type} (m : List (String × α)) (k : String)
    (h : k ∉ akeys m) : alookup m k = none := by
  have := (alookup_isSome_iff_mem_akeys m k).not.mpr h
  cases hlk : alookup m k with
  | none => rfl
  | some v => rw [hlk] at this; simp at this

theorem akeys_nodup_mapSet {α : Type} (m : List (String × α)) (k : String) (v : α)
    (h : (akeys m).Nodup) : (akeys (mapSet m k v)).Nodup := by
  rw [akeys_mapSet]
  by_cases h2 : (alookup m k).isSome
  · simp [h2, h]
  · rw [alookup_isSome_iff_mem_akeys] at h2
    simp [alookup_isSome_iff_mem_akeys, h2, List.nodup_append, h]

/-! ### Decimal rendering of integers and the JSON encoding of trace paths

`JSON.stringify` applied to an array of integers produces
`"[" ++ <comma separated decimal renderings> ++ "]"`.  The rendering is
rebuilt here character by character so that injectivity can be proved. -/

/-- Decimal digit character for a value `< 10`, as produced by JSON. -/
def digitCh (n : Nat) : Char := Char.ofNat (48 + n % 10)

/-- Decimal digit characters of a natural number, most significant first.
The `fuel` argument makes the recursion structural; `fuel = n` is enough
because `n / 10 < n` for `n ≥ 10`. -/
def natCharsAux : Nat → Nat → List Char
  | 0, n => [digitCh n]
  | fuel + 1, n =>
      if n < 10 then [digitCh n]
      else natCharsAux fuel (n / 10) ++ [digitCh (n % 10)]

/-- Decimal digit characters of a natural number, most significant first. -/
def natChars (n : Nat) : List Char := natCharsAux n n

theorem natCharsAux_fuel_irrel :
    ∀ (f₁ : Nat), ∀ (f₂ n : Nat), n ≤ f₁ → n ≤ f₂ → natCharsAux f₁ n = natCharsAux f₂ n := by
  intro f₁
  induction f₁ with
  | zero =>
      intro f₂ n h1 _
      have : n = 0 := by omega
      subst this
      cases f₂ with
      | zero => rfl
      | succ f => simp [natCharsAux]
  | succ f ih =>
      intro f₂ n h1 h2
      cases f₂ with
      | zero =>
          have : n = 0 := by omega
          subst this
          simp [natCharsAux]
      | succ f' =>
          simp only [natCharsAux]
          by_cases hn : n < 10
          · simp [hn]
          · simp only [hn, if_false]
            have hlt : n / 10 < n := Nat.div_lt_self (by omega) (by omega)
            have hd : n / 10 ≤ f := by omega
            have hd' : n / 10 ≤ f' := by omega
            rw [ih f' (n / 10) hd hd']

/-- Decimal rendering of an integer (JSON number rendering for integers). -/
def intChars (i : Int) : List Char :=
  if i < 0 then '-' :: natChars i.natAbs else natChars i.natAbs

/-- Comma separated concatenation, as in `Array.prototype.join(",")`. -/
def joinComma : List (List Char) → List Char
  | [] => []
  | [s] => s
  | s :: rest => s ++ ',' :: joinComma rest

/-- `JSON.stringify` of a list of integers. -/
def jsonKey (path : List Int) : String :=
  String.mk ('[' :: joinComma (path.map intChars) ++ [']'])

theorem digitCh_inj {m n : Nat} (hm : m < 10) (hn : n < 10)
    (h : digitCh m = digitCh n) : m = n := by
  revert h
  unfold digitCh
  interval_cases m <;> interval_cases n <;> decide

theorem digitCh_isDigit (n : Nat) : (digitCh n).isDigit := by
  unfold digitCh
  have : n % 10 < 10 := Nat.mod_lt _ (by omega)
  interval_cases h : n % 10 <;> decide

theorem natChars_eq_small {n : Nat} (h : n < 10) : natChars n = [digitCh n] := by
  unfold natChars
  cases n with
  | zero => rfl
  | succ m => simp [natCharsAux, h]

theorem natChars_eq_big {n : Nat} (h : ¬n < 10) :
    natChars n = natChars (n / 10) ++ [digitCh (n % 10)] := by
  obtain ⟨m, rfl⟩ : ∃ m, n = m + 1 := ⟨n - 1, by omega⟩
  have hlt : (m + 1) / 10 < m + 1 := Nat.div_lt_self (by omega) (by omega)
  show natCharsAux (m + 1) (m + 1) = _
  have hstep : natCharsAux (m + 1) (m + 1)
      = natCharsAux m ((m + 1) / 10) ++ [digitCh ((m + 1) % 10)] := by
    simp [natCharsAux, h]
  rw [hstep,
    natCharsAux_fuel_irrel m ((m + 1) / 10) ((m + 1) / 10) (by omega) (le_refl _)]
  rfl

theorem natChars_ne_nil (n : Nat) : natChars n ≠ [] := by
  by_cases h : n < 10
  · rw [natChars_eq_small h]; simp
  · rw [natChars_eq_big h]; simp

theorem natChars_all_digit (n : Nat) : ∀ c ∈ natChars n, c.isDigit := by
  induction n using Nat.strong_induction_on with
  | _ n ih =>
      by_cases h : n < 10
      · rw [natChars_eq_small h]
        simpa using digitCh_isDigit n
      · rw [natChars_eq_big h]
        intro c hc
        simp at hc
        rcases hc with hc | hc
        · have hlt : n / 10 < n := Nat.div_lt_self (by omega) (by omega)
          exact ih (n / 10) hlt c hc
        · exact hc ▸ digitCh_isDigit (n % 10)

theorem concat_inj {α : Type} {xs ys : List α} {a b : α}
    (h : xs ++ [a] = ys ++ [b]) : xs = ys ∧ a = b := by
  have hrev : a :: xs.reverse = b :: ys.reverse := by
    have := congrArg List.reverse h
    simpa using this
  obtain ⟨h1, h2⟩ := List.cons.inj hrev
  exact ⟨by simpa using congrArg List.reverse h2, h1⟩

theorem natChars_inj : ∀ {m n : Nat}, natChars m = natChars n → m = n := by
  intro m
  induction m using Nat.strong_induction_on with
  | _ m ih =>
      intro n h
      by_cases hm : m < 10 <;> by_cases hn : n < 10
      · rw [natChars_eq_small hm, natChars_eq_small hn] at h
        simp at h
        exact digitCh_inj hm hn h
      · exfalso
        rw [natChars_eq_small hm, natChars_eq_big hn] at h
        have hl := congrArg List.length h
        simp at hl
        exact natChars_ne_nil (n / 10) hl
      · exfalso
        rw [natChars_eq_big hm, natChars_eq_small hn] at h
        have hl := congrArg List.length h
        simp at hl
        exact natChars_ne_nil (m / 10) hl
      · rw [natChars_eq_big hm, natChars_eq_big hn] at h
        obtain ⟨h1, h2⟩ := concat_inj h
        have hdiv : m / 10 = n / 10 :=
          ih (m / 10) (by
            have hlt : m / 10 < m := Nat.div_lt_self (by omega) (by omega)
            omega) h1
        have hmod : m % 10 = n % 10 :=
          digitCh_inj (Nat.mod_lt _ (by omega)) (Nat.mod_lt _ (by omega)) h2
        omega

theorem natChars_head_digit (n : Nat) :
    ∃ c cs, natChars n = c :: cs ∧ c.isDigit := by
  cases h : natChars n with
  | nil => exact absurd h (natChars_ne_nil n)
  | cons c cs =>
      exact ⟨c, cs, rfl, natChars_all_digit n c (h ▸ List.mem_cons_self c cs)⟩

theorem intChars_inj : ∀ {i j : Int}, intChars i = intChars j → i = j := by
  intro i j h
  unfold intChars at h
  by_cases hi : i < 0 <;> by_cases hj : j < 0
  · simp [hi, hj] at h
    have := natChars_inj h
    omega
  · exfalso
    simp [hi, hj] at h
    obtain ⟨c, cs, hc, hd⟩ := natChars_head_digit j.natAbs
    rw [hc] at h
    have : '-' = c := (List.cons.inj h).1
    rw [← this] at hd
    exact absurd hd (by decide)
  · exfalso
    simp [hi, hj] at h
    obtain ⟨c, cs, hc, hd⟩ := natChars_head_digit i.natAbs
    rw [hc] at h
    have : c = '-' := (List.cons.inj h).1
    rw [this] at hd
    exact absurd hd (by decide)
  · simp [hi, hj] at h
    have := natChars_inj h
    omega

theorem isDigit_ne_comma {c : Char} (h : c.isDigit) : c ≠ ',' := by
  intro he
  rw [he] at h
  exact absurd h (by decide)

theorem intChars_no_comma (i : Int) : ∀ c ∈ intChars i, c ≠ ',' := by
  intro c hc
  unfold intChars at hc
  by_cases hi : i < 0
  · simp [hi] at hc
    rcases hc with hc | hc
    · subst hc; decide
    · exact isDigit_ne_comma (natChars_all_digit i.natAbs c hc)
  · simp [hi] at hc
    exact isDigit_ne_comma (natChars_all_digit i.natAbs c hc)

theorem intChars_ne_nil (i : Int) : intChars i ≠ [] := by
  unfold intChars
  by_cases hi : i < 0
  · simp [hi]
  · simp [hi, natChars_ne_nil]

/-- Splitting at a delimiter is unambiguous when neither left part
contains the delimiter and both right parts are empty or start with it. -/
theorem splitComma_inj :
    ∀ (s₁ : List Char) (s₂ r₁ r₂ : List Char),
      (∀ c ∈ s₁, c ≠ ',') → (∀ c ∈ s₂, c ≠ ',') →
      (r₁ = [] ∨ ∃ t, r₁ = ',' :: t) → (r₂ = [] ∨ ∃ t, r₂ = ',' :: t) →
      s₁ ++ r₁ = s₂ ++ r₂ → s₁ = s₂ ∧ r₁ = r₂ := by
  intro s₁
  induction s₁ with
  | nil =>
      intro s₂ r₁ r₂ _ hs₂ hr₁ hr₂ h
      cases s₂ with
      | nil => exact ⟨rfl, by simpa using h⟩
      | cons c cs =>
          exfalso
          simp at h
          rcases hr₁ with hr₁ | ⟨t, hr₁⟩
          · subst hr₁; simp at h
          · subst hr₁
            have : c = ',' := by
              have := congrArg (List.head?) h
              simpa using this.symm
            exact hs₂ c (List.mem_cons_self c cs) this
  | cons c cs ih =>
      intro s₂ r₁ r₂ hs₁ hs₂ hr₁ hr₂ h
      cases s₂ with
      | nil =>
          exfalso
          simp at h
          rcases hr₂ with hr₂ | ⟨t, hr₂⟩
          · subst hr₂; simp at h
          · subst hr₂
            have : c = ',' := by
              have := congrArg (List.head?) h
              simpa using this
            exact hs₁ c (List.mem_cons_self c cs) this
      | cons d ds =>
          simp at h
          obtain ⟨hcd, hrest⟩ := h
          have := ih ds r₁ r₂ (fun x hx => hs₁ x (List.mem_cons_of_mem c hx))
            (fun x hx => hs₂ x (List.mem_cons_of_mem d hx)) hr₁ hr₂ hrest
          exact ⟨by rw [hcd, this.1], this.2⟩

theorem joinComma_ne_nil {s : List Char} {ss : List (List Char)} (hne : s ≠ []) :
    joinComma (s :: ss) ≠ [] := by
  cases ss with
  | nil => simpa [joinComma] using hne
  | cons t ts =>
      simp only [joinComma]
      intro h
      simp at h

theorem joinComma_inj :
    ∀ (ss tt : List (List Char)),
      (∀ s ∈ ss, s ≠ [] ∧ ∀ c ∈ s, c ≠ ',') →
      (∀ s ∈ tt, s ≠ [] ∧ ∀ c ∈ s, c ≠ ',') →
      joinComma ss = joinComma tt → ss = tt := by
  intro ss
  induction ss with
  | nil =>
      intro tt _ htt h
      cases tt with
      | nil => rfl
      | cons t ts =>
          exact absurd h.symm (joinComma_ne_nil (htt t (List.mem_cons_self t ts)).1)
  | cons s srest ih =>
      intro tt hss htt h
      cases tt with
      | nil =>
          exact absurd h (joinComma_ne_nil (hss s (List.mem_cons_self s srest)).1)
      | cons t trest =>
          have hs := hss s (List.mem_cons_self s srest)
          have ht := htt t (List.mem_cons_self t trest)
          have hjoin : s ++ (match srest with | [] => ([] : List Char) | _ :: _ => ',' :: joinComma srest)
              = t ++ (match trest with | [] => ([] : List Char) | _ :: _ => ',' :: joinComma trest) := by
            cases srest <;> cases trest <;> simpa [joinComma] using h
          have hsplit := splitComma_inj s t _ _ hs.2 ht.2
            (by cases srest <;> simp) (by cases trest <;> simp) hjoin
          obtain ⟨hst, hrr⟩ := hsplit
          cases srest with
          | nil =>
              cases trest with
              | nil => rw [hst]
              | cons u us => simp at hrr
          | cons u us =>
              cases trest with
              | nil => simp at hrr
              | cons v vs =>
                  simp only [List.cons.injEq, true_and] at hrr
                  have hrec := ih (v :: vs)
                    (fun x hx => hss x (List.mem_cons_of_mem s hx))
                    (fun x hx => htt x (List.mem_cons_of_mem t hx)) hrr
                  rw [hst, hrec]

/-- The JSON encoding of integer paths is injective: distinct paths get
distinct map keys, so "one node per distinct path" is meaningful. -/
theorem jsonKey_inj : Function.Injective jsonKey := by
  intro p q h
  unfold jsonKey at h
  have hdata : '[' :: joinComma (p.map intChars) ++ [']']
      = '[' :: joinComma (q.map intChars) ++ [']'] := congrArg String.data h
  have h2 : joinComma (p.map intChars) ++ [']'] = joinComma (q.map intChars) ++ [']'] :=
    (List.cons.inj hdata).2
  have h3 := (concat_inj h2).1
  have h4 := joinComma_inj (p.map intChars) (q.map intChars)
    (by intro s hs
        obtain ⟨i, _, hi⟩ := List.mem_map.mp hs
        exact hi ▸ ⟨intChars_ne_nil i, intChars_no_comma i⟩)
    (by intro s hs
        obtain ⟨i, _, hi⟩ := List.mem_map.mp hs
        exact hi ▸ ⟨intChars_ne_nil i, intChars_no_comma i⟩) h3
  have hinj : Function.Injective intChars := fun a b hab => intChars_inj hab
  exact List.map_injective_iff.mpr hinj h4

/-! ### `hexToBigIntSafe` (src/lib/format.ts)

The argument is an arbitrary runtime value; the constructors below cover
the cases the function distinguishes (`bigint`, finite `number`,
non-finite `number`, `string`, anything else). -/

inductive JSNumVal where
  | big (i : Int)
  | num (q : ℚ)
  | nan
  | str (s : String)
  | other
deriving Repr, DecidableEq

/-- Whitespace for JavaScript's `String.prototype.trim` (the common
ASCII subset: space, tab, line feed, carriage return, vertical tab,
form feed). -/
def jsIsSpace (c : Char) : Bool :=
  c = ' ' || c = '\t' || c = '\n' || c = '\r' || c = '\x0b' || c = '\x0c'

/-- JavaScript `s.trim()`. -/
def jsTrim (s : String) : String :=
  String.mk (((s.data.dropWhile jsIsSpace).reverse.dropWhile jsIsSpace).reverse)

def isHexDigitCh (c : Char) : Bool :=
  c.isDigit || ('a' ≤ c && c ≤ 'f') || ('A' ≤ c && c ≤ 'F')

def hexDigitVal (c : Char) : Nat :=
  if c.isDigit then c.toNat - 48
  else if 'a' ≤ c && c ≤ 'f' then c.toNat - 87
  else c.toNat - 55

def parseHexNat (cs : List Char) : Nat :=
  cs.foldl (fun acc c => acc * 16 + hexDigitVal c) 0

def parseDecNat (cs : List Char) : Nat :=
  cs.foldl (fun acc c => acc * 10 + (c.toNat - 48)) 0

/-- `^0x[0-9a-fA-F]+$` (lowercase `0x` only, as in the source regex). -/
def isHexLiteral : List Char → Bool
  | '0' :: 'x' :: ds => !ds.isEmpty && ds.all isHexDigitCh
  | _ => false

def hexToBigIntSafe (v : JSNumVal) : Option Int :=
  match v with
  | .big i => some i
  | .num q =>
      if q.den ≠ 1 then none
      else if q < 0 then none
      else some q.num
  | .nan => none
  | .str s =>
      let cs := (jsTrim s).data
      if cs.isEmpty then none
      else if isHexLiteral cs then some (parseHexNat (cs.drop 2))
      else if cs.all Char.isDigit then some (parseDecNat cs)
      else none
  | .other => none

/-! ### Call Tree Builder (CallTraceTree.tsx `buildTree`) and
Gas node builder (GasView.tsx `buildGasNodes`)

A trace entry models the fields `buildTree` / `buildGasNodes` read.
`traceAddress = none` stands for a missing or non-array `traceAddress`;
optional strings are `none` when the runtime value is not a string.
Child node references are stored as map keys (see the header comment). -/

structure TraceEntry where
  traceAddress : Option (List Int)
  method : Option String
  type : Option String
  fromA : Option String
  toA : Option String
  gasUsed : JSNumVal
  error : Option String
deriving Repr, DecidableEq

/-- `entry.traceAddress` after the `Array.isArray` check: missing or
non-array paths collapse to the empty path. -/
def effPath (e : TraceEntry) : List Int := e.traceAddress.getD []

/-- A string-typed field that is non-blank after trimming, else `none`
(the `typeof x === "string" && x.trim()` test; the original, untrimmed
string is kept). -/
def nonBlank : Option String → Option String
  | some s => if jsTrim s = "" then none else some s
  | none => none

def methodLabelOf (e : TraceEntry) : String :=
  ((nonBlank e.method).getD ((nonBlank e.type).getD "CALL"))

/-- JavaScript truthiness of an optional string (`Boolean(x)`):
present and non-empty. -/
def jsTruthy : Option String → Bool
  | some s => s ≠ ""
  | none => false

structure TraceNode where
  key : String
  parentKey : Option String
  traceAddress : List Int
  depth : Nat
  methodLabel : String
  fromA : Option String
  toA : Option String
  gasUsedBi : Int
  exclusiveGasUsedBi : Int
  children : List String
  error : Option String
  errorDisplay : Option String
deriving Repr, DecidableEq

/-- `JSON.stringify(traceAddress)` for an entry. -/
def entryKey (e : TraceEntry) : String := jsonKey (effPath e)

/-- `traceAddress.length ? JSON.stringify(traceAddress.slice(0, -1)) : null` -/
def entryParentKey (e : TraceEntry) : Option String :=
  if (effPath e).isEmpty then none else some (jsonKey (effPath e).dropLast)

/-- One iteration of the entry loop shared by `buildTree` and
`buildGasNodes`: register the node under its path key (a repeated key
overwrites the previous node) and append the key to its parent's
children list. -/
def genInsert {α : Type} (mk : TraceEntry → α)
    (st : List (String × α) × List (String × List String)) (e : TraceEntry) :
    List (String × α) × List (String × List String) :=
  let nodes := mapSet st.1 (entryKey e) (mk e)
  let childrenM :=
    match entryParentKey e with
    | some pk => mapSet st.2 pk (((alookup st.2 pk).getD []) ++ [entryKey e])
    | none => st.2
  (nodes, childrenM)

/-- The `TraceNode` built for one entry (children and derived fields are
filled in by the later passes). -/
def nodeOfEntry (e : TraceEntry) : TraceNode :=
  { key := entryKey e, parentKey := entryParentKey e, traceAddress := effPath e,
    depth := (effPath e).length, methodLabel := methodLabelOf e,
    fromA := e.fromA, toA := e.toA,
    gasUsedBi := (hexToBigIntSafe e.gasUsed).getD 0,
    exclusiveGasUsedBi := 0, children := [], error := e.error,
    errorDisplay := none }

def buildMaps (trace : List TraceEntry) :
    List (String × TraceNode) × List (String × List String) :=
  trace.foldl (genInsert nodeOfEntry) ([], [])

/-- `a.traceAddress[a.traceAddress.length - 1] ?? 0` -/
def lastIdx (n : TraceNode) : Int := n.traceAddress.getLast?.getD 0

/-- Attach children arrays: resolve keys, drop unresolved ones, sort by
final path segment ascending (stable, as `Array.prototype.sort`). -/
def attachChildren (nodes : List (String × TraceNode))
    (childrenM : List (String × List String)) : List (String × TraceNode) :=
  childrenM.foldl
    (fun acc kv =>
      match alookup acc kv.1 with
      | none => acc
      | some parent =>
          let resolved := kv.2.filterMap (alookup acc)
          let sorted := resolved.insertionSort (fun a b => lastIdx a ≤ lastIdx b)
          mapSet acc kv.1 { parent with children := sorted.map (·.key) })
    nodes

/-- Direct children of a node, resolved through the node map. -/
def resolveChildren (m : List (String × TraceNode)) (n : TraceNode) : List TraceNode :=
  n.children.filterMap (alookup m)

def exclusiveUpdate (m : List (String × TraceNode)) (n : TraceNode) : TraceNode :=
  let childrenGas := ((resolveChildren m n).map (·.gasUsedBi)).sum
  { n with exclusiveGasUsedBi :=
      if childrenGas < n.gasUsedBi then n.gasUsedBi - childrenGas else 0 }

/-- `exclusive = gasUsed > childrenGas ? gasUsed - childrenGas : 0n` -/
def computeExclusive (m : List (String × TraceNode)) : List (String × TraceNode) :=
  m.map (fun kv => (kv.1, exclusiveUpdate m kv.2))

def errorDisplayUpdate (m : List (String × TraceNode)) (n : TraceNode) : TraceNode :=
  let childHasError := (resolveChildren m n).any (fun c => jsTruthy c.error)
  { n with errorDisplay :=
      if jsTruthy n.error && !childHasError then n.error else none }

/-- `errorDisplay = node.error && !childHasError ? node.error : undefined` -/
def computeErrorDisplay (m : List (String × TraceNode)) : List (String × TraceNode) :=
  m.map (fun kv => (kv.1, errorDisplayUpdate m kv.2))

structure TreeResult where
  roots : List TraceNode
  byKey : List (String × TraceNode)

def buildTree (trace : List TraceEntry) : TreeResult :=
  let maps := buildMaps trace
  let nodes1 := attachChildren maps.1 maps.2
  let nodes2 := computeExclusive nodes1
  let nodes3 := computeErrorDisplay nodes2
  { roots := ((nodes3.map (·.2)).filter (fun n => n.parentKey = none)).insertionSort
      (fun a b => a.depth ≤ b.depth),
    byKey := nodes3 }

/-- GasView's node record (display-only label fields built from the
external `resolveContractName` callback are not modelled). -/
structure GasNode where
  key : String
  parentKey : Option String
  gasUsed : Int
  exclusiveGasUsed : Int
  methodLabel : String
  toAddress : Option String
  traceAddress : List Int
deriving Repr, DecidableEq

/-- The `GasNode` built for one entry. -/
def gasNodeOfEntry (e : TraceEntry) : GasNode :=
  { key := entryKey e, parentKey := entryParentKey e,
    gasUsed := (hexToBigIntSafe e.gasUsed).getD 0, exclusiveGasUsed := 0,
    methodLabel := methodLabelOf e, toAddress := e.toA, traceAddress := effPath e }

def gasMaps (trace : List TraceEntry) :
    List (String × GasNode) × List (String × List String) :=
  trace.foldl (genInsert gasNodeOfEntry) ([], [])

/-- The parent→children index of `buildGasNodes` (internal in the source,
exposed here so theorems can speak about direct children). -/
def buildGasChildren (trace : List TraceEntry) : List (String × List String) :=
  (gasMaps trace).2

def gasExclusiveUpdate (maps : List (String × GasNode) × List (String × List String))
    (k : String) (n : GasNode) : GasNode :=
  let childKeys := (alookup maps.2 k).getD []
  let childrenGas := ((childKeys.filterMap (alookup maps.1)).map (·.gasUsed)).sum
  { n with exclusiveGasUsed :=
      if childrenGas < n.gasUsed then n.gasUsed - childrenGas else 0 }

def buildGasNodes (trace : List TraceEntry) : List (String × GasNode) :=
  let maps := gasMaps trace
  maps.1.map (fun kv => (kv.1, gasExclusiveUpdate maps kv.1 kv.2))

/-! ### Invariants of the entry loop and the tree passes -/

theorem mem_of_alookup {α : Type} :
    ∀ (m : List (String × α)) (k : String) (v : α),
      alookup m k = some v → (k, v) ∈ m := by
  intro m
  induction m with
  | nil => intro k v h; simp [alookup] at h
  | cons hd tl ih =>
      intro k v h
      obtain ⟨k', w⟩ := hd
      by_cases h2 : k' = k
      · subst h2
        simp [alookup] at h
        simp [h]
      · simp [alookup, h2] at h
        exact List.mem_cons_of_mem _ (ih k v h)

theorem alookup_of_mem_nodup {α : Type} :
    ∀ (m : List (String × α)) (k : String) (v : α),
      (akeys m).Nodup → (k, v) ∈ m → alookup m k = some v := by
  intro m
  induction m with
  | nil => intro k v _ h; simp at h
  | cons hd tl ih =>
      intro k v hnd h
      obtain ⟨k', w⟩ := hd
      simp only [akeys, List.map_cons, List.nodup_cons] at hnd
      rcases List.mem_cons.mp h with h | h
      · cases h
        simp [alookup]
      · have hkne : k' ≠ k := by
          intro he
          subst he
          exact hnd.1 (List.mem_map.mpr ⟨(k', v), h, rfl⟩)
        simp only [alookup, hkne, if_false]
        exact ih k v hnd.2 h

theorem filterMap_alookup_map {α β : Type} (f : α → β) (m : List (String × α)) :
    ∀ (cs : List String),
      cs.filterMap (alookup (m.map (fun kv => (kv.1, f kv.2))))
        = (cs.filterMap (alookup m)).map f := by
  intro cs
  induction cs with
  | nil => simp
  | cons c cs ih =>
      simp only [List.filterMap_cons, alookup_map_value]
      cases alookup m c with
      | none => simp [ih]
      | some v => simp [ih]

theorem akeys_map_value {α β : Type} (f : String → α → β) (m : List (String × α)) :
    akeys (m.map (fun kv => (kv.1, f kv.1 kv.2))) = akeys m := by
  induction m with
  | nil => rfl
  | cons hd tl ih => simpa [akeys] using ih

theorem alookup_map_keyed {α β : Type} (f : String → α → β) (m : List (String × α))
    (k : String) :
    alookup (m.map (fun kv => (kv.1, f kv.1 kv.2))) k = (alookup m k).map (f k) := by
  induction m with
  | nil => simp [alookup]
  | cons hd tl ih =>
      obtain ⟨k', w⟩ := hd
      by_cases h : k' = k
      · simp [alookup, h]
      · simp [alookup, h, ih]

/-- Node registered per key: exactly the node of the last entry with that
path key; no node for keys no entry maps to. -/
theorem genInsert_nodes_lookup {α : Type} (mk : TraceEntry → α) :
    ∀ (trace : List TraceEntry) (k : String),
      alookup (trace.foldl (genInsert mk) ([], [])).1 k
        = ((trace.filter (fun e => entryKey e = k)).getLast?).map mk := by
  intro trace
  induction trace using List.reverseRecOn with
  | nil => intro k; simp [alookup]
  | append_singleton t e ih =>
      intro k
      rw [List.foldl_append]
      simp only [List.foldl_cons, List.foldl_nil]
      by_cases h : entryKey e = k
      · have : alookup (genInsert mk (t.foldl (genInsert mk) ([], [])) e).1 k
            = some (mk e) := by
          simp only [genInsert]
          rw [← h, alookup_mapSet_self]
        rw [this, List.filter_append]
        simp [h]
      · have : alookup (genInsert mk (t.foldl (genInsert mk) ([], [])) e).1 k
            = alookup (t.foldl (genInsert mk) ([], [])).1 k := by
          simp only [genInsert]
          exact alookup_mapSet_ne _ _ _ _ h
        rw [this, ih, List.filter_append]
        simp [h]

/-- Children list per parent key: one appended child key per entry whose
parent key matches, in entry order — duplicated paths append twice. -/
theorem genInsert_children_lookup {α : Type} (mk : TraceEntry → α) :
    ∀ (trace : List TraceEntry) (k : String),
      ((alookup (trace.foldl (genInsert mk) ([], [])).2 k).getD [])
        = (trace.filter (fun e => entryParentKey e = some k)).map entryKey := by
  intro trace
  induction trace using List.reverseRecOn with
  | nil => intro k; simp [alookup]
  | append_singleton t e ih =>
      intro k
      rw [List.foldl_append]
      simp only [List.foldl_cons, List.foldl_nil]
      rw [List.filter_append]
      cases hpk : entryParentKey e with
      | none =>
          have : (genInsert mk (t.foldl (genInsert mk) ([], [])) e).2
              = (t.foldl (genInsert mk) ([], [])).2 := by
            simp [genInsert, hpk]
          rw [this, ih]
          simp [hpk]
      | some pk =>
          by_cases h : pk = k
          · subst h
            have : alookup (genInsert mk (t.foldl (genInsert mk) ([], [])) e).2 pk
                = some (((alookup (t.foldl (genInsert mk) ([], [])).2 pk).getD [])
                    ++ [entryKey e]) := by
              simp only [genInsert, hpk]
              exact alookup_mapSet_self _ _ _
            rw [this]
            simp [hpk, ih]
          · have : alookup (genInsert mk (t.foldl (genInsert mk) ([], [])) e).2 k
                = alookup (t.foldl (genInsert mk) ([], [])).2 k := by
              simp only [genInsert, hpk]
              exact alookup_mapSet_ne _ _ _ _ h
            rw [this, ih]
            simp [hpk, h]

theorem genInsert_nodes_nodup {α : Type} (mk : TraceEntry → α) (trace : List TraceEntry) :
    (akeys (trace.foldl (genInsert mk) ([], [])).1).Nodup := by
  induction trace using List.reverseRecOn with
  | nil => simp [akeys]
  | append_singleton t e ih =>
      rw [List.foldl_append]
      simp only [List.foldl_cons, List.foldl_nil, genInsert]
      exact akeys_nodup_mapSet _ _ _ ih

/-- Fields of a `TraceNode` that the child-attachment and derived-field
passes never change. -/
def nodeCore (n : TraceNode) :
    String × Option String × List Int × Nat × String × Option String ×
      Option String × Int × Option String :=
  (n.key, n.parentKey, n.traceAddress, n.depth, n.methodLabel, n.fromA, n.toA,
    n.gasUsedBi, n.error)

theorem attachChildren_core (cm : List (String × List String)) :
    ∀ (nodes : List (String × TraceNode)) (k : String),
      (alookup (attachChildren nodes cm) k).map nodeCore
        = (alookup nodes k).map nodeCore := by
  induction cm with
  | nil => intro nodes k; rfl
  | cons kv cm ih =>
      intro nodes k
      show (alookup (attachChildren _ cm) k).map nodeCore = _
      rw [ih]
      cases hp : alookup nodes kv.1 with
      | none => simp [hp]
      | some parent =>
          simp only [hp]
          by_cases h : kv.1 = k
          · subst h
            rw [alookup_mapSet_self]
            simp [hp, nodeCore]
          · rw [alookup_mapSet_ne _ _ _ _ h]

theorem attachChildren_akeys (cm : List (String × List String)) :
    ∀ (nodes : List (String × TraceNode)),
      akeys (attachChildren nodes cm) = akeys nodes := by
  induction cm with
  | nil => intro nodes; rfl
  | cons kv cm ih =>
      intro nodes
      show akeys (attachChildren _ cm) = _
      rw [ih]
      cases hp : alookup nodes kv.1 with
      | none => simp [hp]
      | some parent =>
          simp only [hp]
          rw [akeys_mapSet]
          simp [hp]

theorem exclusiveUpdate_children (m : List (String × TraceNode)) (n : TraceNode) :
    (exclusiveUpdate m n).children = n.children := rfl

theorem exclusiveUpdate_gas (m : List (String × TraceNode)) (n : TraceNode) :
    (exclusiveUpdate m n).gasUsedBi = n.gasUsedBi := rfl

theorem exclusiveUpdate_error (m : List (String × TraceNode)) (n : TraceNode) :
    (exclusiveUpdate m n).error = n.error := rfl

theorem errorDisplayUpdate_children (m : List (String × TraceNode)) (n : TraceNode) :
    (errorDisplayUpdate m n).children = n.children := rfl

theorem errorDisplayUpdate_gas (m : List (String × TraceNode)) (n : TraceNode) :
    (errorDisplayUpdate m n).gasUsedBi = n.gasUsedBi := rfl

theorem errorDisplayUpdate_error (m : List (String × TraceNode)) (n : TraceNode) :
    (errorDisplayUpdate m n).error = n.error := rfl

theorem errorDisplayUpdate_exclusive (m : List (String × TraceNode)) (n : TraceNode) :
    (errorDisplayUpdate m n).exclusiveGasUsedBi = n.exclusiveGasUsedBi := rfl

theorem filterMap_alookup_map_proj {α β : Type} (f : α → α) (p : α → β)
    (hp : ∀ a, p (f a) = p a) (m : List (String × α)) (cs : List String) :
    (cs.filterMap (alookup (m.map (fun kv => (kv.1, f kv.2))))).map p
      = (cs.filterMap (alookup m)).map p := by
  induction cs with
  | nil => simp
  | cons c cs ih =>
      simp only [List.filterMap_cons, alookup_map_value]
      cases alookup m c with
      | none => simp [ih]
      | some v => simp [ih, hp]

theorem filterMap_alookup_keyed_proj {α β : Type} (f : String → α → α) (p : α → β)
    (hp : ∀ k a, p (f k a) = p a) (m : List (String × α)) (cs : List String) :
    (cs.filterMap (alookup (m.map (fun kv => (kv.1, f kv.1 kv.2))))).map p
      = (cs.filterMap (alookup m)).map p := by
  induction cs with
  | nil => simp
  | cons c cs ih =>
      simp only [List.filterMap_cons, alookup_map_keyed]
      cases alookup m c with
      | none => simp [ih]
      | some v => simp [ih, hp]

/-- The `byKey` map of `buildTree` is the attach stage with the two
derived-field passes applied pointwise. -/
theorem buildTree_byKey_eq (trace : List TraceEntry) :
    (buildTree trace).byKey
      = (computeExclusive (attachChildren (buildMaps trace).1 (buildMaps trace).2)).map
          (fun kv => (kv.1,
            errorDisplayUpdate
              (computeExclusive (attachChildren (buildMaps trace).1 (buildMaps trace).2))
              kv.2)) := rfl

theorem buildTree_exclusive_spec (trace : List TraceEntry) :
    ∀ kv ∈ (buildTree trace).byKey,
      kv.2.exclusiveGasUsedBi
        = max 0 (kv.2.gasUsedBi
            - ((resolveChildren (buildTree trace).byKey kv.2).map (·.gasUsedBi)).sum)
      ∧ 0 ≤ kv.2.exclusiveGasUsedBi := by
  intro kv hkv
  set m1 := attachChildren (buildMaps trace).1 (buildMaps trace).2 with hm1
  set m2 := computeExclusive m1 with hm2
  have hbk : (buildTree trace).byKey
      = m2.map (fun kv => (kv.1, errorDisplayUpdate m2 kv.2)) := rfl
  rw [hbk] at hkv
  obtain ⟨kv2, hkv2, hkveq⟩ := List.mem_map.mp hkv
  have hm2mem := hkv2
  rw [hm2] at hm2mem
  obtain ⟨kv1, hkv1, hkv2eq⟩ := List.mem_map.mp hm2mem
  subst hkveq
  subst hkv2eq
  set n1 := kv1.2 with hn1
  -- the value chain: final node = errorDisplayUpdate m2 (exclusiveUpdate m1 n1)
  have hchildren : (errorDisplayUpdate m2 (exclusiveUpdate m1 n1)).children = n1.children := rfl
  have hgas : (errorDisplayUpdate m2 (exclusiveUpdate m1 n1)).gasUsedBi = n1.gasUsedBi := rfl
  -- children resolved in the final map have the same inclusive gas as in m1
  have hsum :
      ((resolveChildren (buildTree trace).byKey (errorDisplayUpdate m2 (exclusiveUpdate m1 n1))).map
          (·.gasUsedBi)).sum
        = ((resolveChildren m1 n1).map (·.gasUsedBi)).sum := by
    unfold resolveChildren
    rw [hchildren, hbk]
    rw [filterMap_alookup_map_proj (errorDisplayUpdate m2) (·.gasUsedBi)
      (fun a => rfl) m2 n1.children]
    rw [hm2]
    show ((n1.children.filterMap (alookup (m1.map (fun kv => (kv.1, exclusiveUpdate m1 kv.2))))).map
        (·.gasUsedBi)).sum = _
    rw [filterMap_alookup_map_proj (exclusiveUpdate m1) (·.gasUsedBi)
      (fun a => rfl) m1 n1.children]
  rw [hsum]
  show (exclusiveUpdate m1 n1).exclusiveGasUsedBi
      = max 0 (n1.gasUsedBi - ((resolveChildren m1 n1).map (·.gasUsedBi)).sum)
    ∧ 0 ≤ (exclusiveUpdate m1 n1).exclusiveGasUsedBi
  unfold exclusiveUpdate
  set s := ((resolveChildren m1 n1).map (·.gasUsedBi)).sum with hs
  by_cases hcase : s < n1.gasUsedBi
  · simp only [hcase, if_true]
    constructor
    · rw [max_eq_right] <;> omega
    · omega
  · simp only [hcase, if_false]
    constructor
    · rw [max_eq_left] <;> omega
    · omega

/-- Direct children of a gas node, through the parent→children index. -/
def gasChildrenInclusive (trace : List TraceEntry) (k : String) : Int :=
  ((((alookup (buildGasChildren trace) k).getD []).filterMap
      (alookup (buildGasNodes trace))).map (·.gasUsed)).sum

theorem buildGasNodes_exclusive_spec (trace : List TraceEntry) :
    ∀ kv ∈ buildGasNodes trace,
      kv.2.exclusiveGasUsed = max 0 (kv.2.gasUsed - gasChildrenInclusive trace kv.1)
      ∧ 0 ≤ kv.2.exclusiveGasUsed := by
  intro kv hkv
  have hbk : buildGasNodes trace
      = (gasMaps trace).1.map (fun kv => (kv.1, gasExclusiveUpdate (gasMaps trace) kv.1 kv.2)) := rfl
  rw [hbk] at hkv
  obtain ⟨kv0, hkv0, hkveq⟩ := List.mem_map.mp hkv
  subst hkveq
  have hsum : gasChildrenInclusive trace kv0.1
      = ((((alookup (gasMaps trace).2 kv0.1).getD []).filterMap
          (alookup (gasMaps trace).1)).map (·.gasUsed)).sum := by
    unfold gasChildrenInclusive buildGasChildren
    rw [hbk]
    rw [filterMap_alookup_keyed_proj (gasExclusiveUpdate (gasMaps trace)) (·.gasUsed)
      (fun k a => rfl) (gasMaps trace).1]
  show (gasExclusiveUpdate (gasMaps trace) kv0.1 kv0.2).exclusiveGasUsed
      = max 0 ((gasExclusiveUpdate (gasMaps trace) kv0.1 kv0.2).gasUsed
          - gasChildrenInclusive trace kv0.1)
    ∧ 0 ≤ (gasExclusiveUpdate (gasMaps trace) kv0.1 kv0.2).exclusiveGasUsed
  rw [hsum]
  unfold gasExclusiveUpdate
  set s := ((((alookup (gasMaps trace).2 kv0.1).getD []).filterMap
      (alookup (gasMaps trace).1)).map (·.gasUsed)).sum with hs
  by_cases hcase : s < kv0.2.gasUsed
  · simp only [hcase, if_true]
    constructor
    · rw [max_eq_right] <;> omega
    · omega
  · simp only [hcase, if_false]
    constructor
    · rw [max_eq_left] <;> omega
    · omega

/-- C1.  Exclusive gas is the children-inclusive-gas deficit clamped at
zero, in both tree builders; it is never negative. -/
theorem c1_exclusive_gas_clamped (trace : List TraceEntry) :
    (∀ kv ∈ (buildTree trace).byKey,
        kv.2.exclusiveGasUsedBi
          = max 0 (kv.2.gasUsedBi
              - ((resolveChildren (buildTree trace).byKey kv.2).map (·.gasUsedBi)).sum)
        ∧ 0 ≤ kv.2.exclusiveGasUsedBi)
    ∧ (∀ kv ∈ buildGasNodes trace,
        kv.2.exclusiveGasUsed = max 0 (kv.2.gasUsed - gasChildrenInclusive trace kv.1)
        ∧ 0 ≤ kv.2.exclusiveGasUsed) :=
  ⟨buildTree_exclusive_spec trace, buildGasNodes_exclusive_spec trace⟩

theorem jsTruthy_isSome {o : Option String} (h : jsTruthy o = true) : o.isSome := by
  cases o with
  | none => simp [jsTruthy] at h
  | some s => rfl

/-- In the finished tree, `errorDisplay` is set exactly on nodes that
carry a (truthy) error string none of whose direct children carries one. -/
theorem buildTree_errorDisplay_iff (trace : List TraceEntry) :
    ∀ kv ∈ (buildTree trace).byKey,
      kv.2.errorDisplay.isSome
        ↔ (jsTruthy kv.2.error = true
            ∧ ∀ c ∈ resolveChildren (buildTree trace).byKey kv.2, jsTruthy c.error = false) := by
  intro kv hkv
  set m1 := attachChildren (buildMaps trace).1 (buildMaps trace).2 with hm1
  set m2 := computeExclusive m1 with hm2
  have hbk : (buildTree trace).byKey
      = m2.map (fun kv => (kv.1, errorDisplayUpdate m2 kv.2)) := rfl
  rw [hbk] at hkv
  obtain ⟨kv2, hkv2, hkveq⟩ := List.mem_map.mp hkv
  subst hkveq
  set n2 := kv2.2 with hn2
  have herr : (errorDisplayUpdate m2 n2).error = n2.error := rfl
  have hchildren : (errorDisplayUpdate m2 n2).children = n2.children := rfl
  have hres : resolveChildren (buildTree trace).byKey (errorDisplayUpdate m2 n2)
      = (resolveChildren m2 n2).map (errorDisplayUpdate m2) := by
    unfold resolveChildren
    rw [hchildren, hbk]
    induction n2.children with
    | nil => simp
    | cons c cs ih =>
        simp only [List.filterMap_cons, alookup_map_value]
        cases alookup m2 c with
        | none => simpa using ih
        | some v => simpa using ih
  rw [hres]
  have hforall : (∀ c ∈ (resolveChildren m2 n2).map (errorDisplayUpdate m2),
        jsTruthy c.error = false)
      ↔ (∀ c0 ∈ resolveChildren m2 n2, jsTruthy c0.error = false) := by
    constructor
    · intro h c0 hc0
      have := h (errorDisplayUpdate m2 c0) (List.mem_map.mpr ⟨c0, hc0, rfl⟩)
      rw [errorDisplayUpdate_error] at this
      exact this
    · intro h c hc
      obtain ⟨c0, hc0, hceq⟩ := List.mem_map.mp hc
      rw [← hceq, errorDisplayUpdate_error]
      exact h c0 hc0
  have hanyiff : ((resolveChildren m2 n2).any fun c => jsTruthy c.error) = false
      ↔ (∀ c0 ∈ resolveChildren m2 n2, jsTruthy c0.error = false) := by
    rw [List.any_eq_false]
    constructor
    · intro h c0 hc0; simpa using h c0 hc0
    · intro h c0 hc0; simpa using h c0 hc0
  show (if (jsTruthy n2.error
          && !((resolveChildren m2 n2).any fun c => jsTruthy c.error)) = true
      then n2.error else none).isSome = true
    ↔ (jsTruthy n2.error = true
        ∧ ∀ c ∈ (resolveChildren m2 n2).map (errorDisplayUpdate m2), jsTruthy c.error = false)
  rw [show (∀ c ∈ (resolveChildren m2 n2).map (errorDisplayUpdate m2),
        jsTruthy c.error = false)
      = (∀ c0 ∈ resolveChildren m2 n2, jsTruthy c0.error = false) from propext hforall]
  cases htr : jsTruthy n2.error with
  | false =>
      simp only [htr, Bool.false_and]
      simp [htr]
  | true =>
      cases hany : (resolveChildren m2 n2).any fun c => jsTruthy c.error with
      | false =>
          simp only [htr, hany, Bool.not_false, Bool.and_self]
          simp only [if_true]
          constructor
          · intro _
            refine ⟨?_, hanyiff.mp hany⟩
            simp [htr]
          · intro _
            exact jsTruthy_isSome htr
      | true =>
          simp only [htr, hany, Bool.not_true, Bool.and_false]
          simp only [Bool.false_eq_true, if_false, Option.isSome_none]
          constructor
          · intro h
            exact absurd h (by simp)
          · intro ⟨_, hall⟩
            exact absurd (hanyiff.mpr hall) (by simp [hany])

/-- An error-origin node carries a truthy error string. -/
theorem buildTree_origin_truthy (trace : List TraceEntry) :
    ∀ kv ∈ (buildTree trace).byKey,
      kv.2.errorDisplay.isSome → jsTruthy kv.2.error = true := by
  intro kv hkv h
  exact ((buildTree_errorDisplay_iff trace kv hkv).mp h).1

/-- C2.  A node is the error origin exactly when it carries an error and
no direct child does; consequently an error origin is never the parent
of another error origin with the identical error string. -/
theorem c2_error_origin_unique (trace : List TraceEntry) :
    ∀ kv ∈ (buildTree trace).byKey,
      (kv.2.errorDisplay.isSome
        ↔ (jsTruthy kv.2.error = true
            ∧ ∀ c ∈ resolveChildren (buildTree trace).byKey kv.2, jsTruthy c.error = false))
      ∧ ∀ c ∈ resolveChildren (buildTree trace).byKey kv.2,
          ¬(kv.2.errorDisplay.isSome ∧ c.errorDisplay.isSome
              ∧ c.errorDisplay = kv.2.errorDisplay) := by
  intro kv hkv
  refine ⟨buildTree_errorDisplay_iff trace kv hkv, ?_⟩
  intro c hc ⟨horig, hcorig, _⟩
  have hchild_false := ((buildTree_errorDisplay_iff trace kv hkv).mp horig).2 c hc
  obtain ⟨ck, hckmem, hcl⟩ := List.mem_filterMap.mp hc
  have hcmem : (ck, c) ∈ (buildTree trace).byKey := mem_of_alookup _ _ _ hcl
  have := buildTree_origin_truthy trace (ck, c) hcmem hcorig
  rw [this] at hchild_false
  exact absurd hchild_false (by simp)

/-! ### C10: keying by the JSON path encoding -/

theorem mem_of_getLast?_eq {α : Type} {l : List α} {a : α}
    (h : l.getLast? = some a) : a ∈ l := by
  have hmem : a ∈ l.getLast? := by rw [Option.mem_def]; exact h
  obtain ⟨hne, heq⟩ := List.mem_getLast?_eq_getLast hmem
  exact heq ▸ List.getLast_mem hne

theorem akeys_map_value2 {α β : Type} (f : α → β) (m : List (String × α)) :
    akeys (m.map (fun kv => (kv.1, f kv.2))) = akeys m := by
  induction m with
  | nil => rfl
  | cons hd tl ih => simpa [akeys] using ih

theorem buildTree_akeys (trace : List TraceEntry) :
    akeys (buildTree trace).byKey = akeys (buildMaps trace).1 := by
  have h3 : (buildTree trace).byKey
      = (computeExclusive (attachChildren (buildMaps trace).1 (buildMaps trace).2)).map
          (fun kv => (kv.1,
            errorDisplayUpdate
              (computeExclusive (attachChildren (buildMaps trace).1 (buildMaps trace).2)) kv.2)) := rfl
  rw [h3, akeys_map_value2]
  show akeys ((attachChildren (buildMaps trace).1 (buildMaps trace).2).map
      (fun kv => (kv.1, exclusiveUpdate (attachChildren (buildMaps trace).1 (buildMaps trace).2) kv.2))) = _
  rw [akeys_map_value2]
  exact attachChildren_akeys _ _

theorem buildTree_akeys_nodup (trace : List TraceEntry) :
    (akeys (buildTree trace).byKey).Nodup := by
  rw [buildTree_akeys]
  exact genInsert_nodes_nodup nodeOfEntry trace

/-- Pointwise description of the final node map: at key `k` sits (the
core of) the node of the last entry whose path key is `k`. -/
theorem buildTree_alookup_core (trace : List TraceEntry) (k : String) :
    (alookup (buildTree trace).byKey k).map nodeCore
      = ((trace.filter (fun e => entryKey e = k)).getLast?).map
          (fun e => nodeCore (nodeOfEntry e)) := by
  set m1 := attachChildren (buildMaps trace).1 (buildMaps trace).2 with hm1
  set m2 := computeExclusive m1 with hm2
  have hbk : (buildTree trace).byKey
      = m2.map (fun kv => (kv.1, errorDisplayUpdate m2 kv.2)) := rfl
  rw [hbk, alookup_map_value]
  rw [Option.map_map]
  have hed : nodeCore ∘ errorDisplayUpdate m2 = nodeCore := funext fun n => rfl
  rw [hed, hm2]
  show (alookup (m1.map (fun kv => (kv.1, exclusiveUpdate m1 kv.2))) k).map nodeCore = _
  rw [alookup_map_value, Option.map_map]
  have hex : nodeCore ∘ exclusiveUpdate m1 = nodeCore := funext fun n => rfl
  rw [hex, hm1, attachChildren_core]
  rw [show buildMaps trace = trace.foldl (genInsert nodeOfEntry) ([], []) from rfl]
  rw [genInsert_nodes_lookup nodeOfEntry trace k, Option.map_map]
  rfl

/-- Every stored node is (in its stable fields) the node of some entry
of the trace, and is keyed by the JSON encoding of its path. -/
theorem buildTree_mem_spec (trace : List TraceEntry) :
    ∀ kv ∈ (buildTree trace).byKey,
      kv.1 = jsonKey kv.2.traceAddress
      ∧ kv.2.parentKey = (if kv.2.traceAddress.isEmpty then none
          else some (jsonKey kv.2.traceAddress.dropLast))
      ∧ ∃ e ∈ trace, effPath e = kv.2.traceAddress := by
  intro kv hkv
  have hl : alookup (buildTree trace).byKey kv.1 = some kv.2 :=
    alookup_of_mem_nodup _ _ _ (buildTree_akeys_nodup trace) hkv
  have hcore := buildTree_alookup_core trace kv.1
  rw [hl] at hcore
  cases hlast : (trace.filter (fun e => entryKey e = kv.1)).getLast? with
  | none => rw [hlast] at hcore; simp at hcore
  | some e =>
      rw [hlast] at hcore
      simp only [Option.map_some'] at hcore
      have hcoreeq : nodeCore kv.2 = nodeCore (nodeOfEntry e) := by
        injection hcore
      have hmemf := mem_of_getLast?_eq hlast
      have hpred : entryKey e = kv.1 := by
        have := List.mem_filter.mp hmemf
        simpa using this.2
      have hmem : e ∈ trace := (List.mem_filter.mp hmemf).1
      simp only [nodeCore, nodeOfEntry, Prod.mk.injEq] at hcoreeq
      obtain ⟨hkey, hpk, hta, _⟩ := hcoreeq
      refine ⟨?_, ?_, e, hmem, hta.symm⟩
      · rw [← hpred, hta]
        rfl
      · rw [hpk, hta]
        rfl

/-- Two stored key/node pairs with the same trace path are one and the
same entry of the map. -/
theorem buildTree_unique_per_path (trace : List TraceEntry) :
    ∀ kv kv', kv ∈ (buildTree trace).byKey → kv' ∈ (buildTree trace).byKey →
      kv.2.traceAddress = kv'.2.traceAddress → kv = kv' := by
  intro kv kv' h h' hta
  have h1 := (buildTree_mem_spec trace kv h).1
  have h2 := (buildTree_mem_spec trace kv' h').1
  have hkeq : kv.1 = kv'.1 := by rw [h1, h2, hta]
  have hv1 : alookup (buildTree trace).byKey kv.1 = some kv.2 :=
    alookup_of_mem_nodup _ _ _ (buildTree_akeys_nodup trace) h
  have hv2 : alookup (buildTree trace).byKey kv'.1 = some kv'.2 :=
    alookup_of_mem_nodup _ _ _ (buildTree_akeys_nodup trace) h'
  rw [← hkeq] at hv2
  rw [hv1] at hv2
  have := Option.some.inj hv2
  exact Prod.ext hkeq this

/-- A node exists for a path exactly when some entry has that path. -/
theorem buildTree_node_exists_iff (trace : List TraceEntry) (p : List Int) :
    (∃ kv ∈ (buildTree trace).byKey, kv.2.traceAddress = p)
      ↔ ∃ e ∈ trace, effPath e = p := by
  constructor
  · intro ⟨kv, hkv, hta⟩
    obtain ⟨_, _, e, hmem, heff⟩ := buildTree_mem_spec trace kv hkv
    exact ⟨e, hmem, heff.trans hta⟩
  · intro ⟨e, hmem, heff⟩
    have hfilter : e ∈ trace.filter (fun e => entryKey e = jsonKey p) := by
      rw [List.mem_filter]
      refine ⟨hmem, ?_⟩
      simp [entryKey, heff]
    have hne : trace.filter (fun e => entryKey e = jsonKey p) ≠ [] :=
      List.ne_nil_of_mem hfilter
    have hlast : ∃ e', (trace.filter (fun e => entryKey e = jsonKey p)).getLast? = some e' := by
      cases hg : (trace.filter (fun e => entryKey e = jsonKey p)).getLast? with
      | none => exact absurd (List.getLast?_eq_none_iff.mp hg) hne
      | some e' => exact ⟨e', rfl⟩
    obtain ⟨e', hlast⟩ := hlast
    have hcore := buildTree_alookup_core trace (jsonKey p)
    rw [hlast] at hcore
    cases hlk : alookup (buildTree trace).byKey (jsonKey p) with
    | none => rw [hlk] at hcore; simp at hcore
    | some n =>
        rw [hlk] at hcore
        simp only [Option.map_some'] at hcore
        have hcoreeq : nodeCore n = nodeCore (nodeOfEntry e') := by injection hcore
        have hpred : entryKey e' = jsonKey p := by
          have := List.mem_filter.mp (mem_of_getLast?_eq hlast)
          simpa using this.2
        have heff' : effPath e' = p := jsonKey_inj hpred
        simp only [nodeCore, nodeOfEntry, Prod.mk.injEq] at hcoreeq
        obtain ⟨_, _, hta, _⟩ := hcoreeq
        exact ⟨(jsonKey p, n), mem_of_alookup _ _ _ hlk, by rw [hta, heff']⟩

/-- C10.  Nodes are keyed by the JSON string encoding of the path;
path-less entries collapse into the single root key `"[]"` with the last
such entry winning; the map holds exactly one node per distinct path and
at most one root-keyed node; every occurrence of a child path appends
one reference to its parent's children list — in both builders. -/
theorem c10_json_path_keys (trace : List TraceEntry) :
    (∀ kv ∈ (buildTree trace).byKey,
        kv.1 = jsonKey kv.2.traceAddress
        ∧ kv.2.parentKey = (if kv.2.traceAddress.isEmpty then none
            else some (jsonKey kv.2.traceAddress.dropLast))
        ∧ ∃ e ∈ trace, effPath e = kv.2.traceAddress)
    ∧ (akeys (buildTree trace).byKey).Nodup
    ∧ (∀ kv kv', kv ∈ (buildTree trace).byKey → kv' ∈ (buildTree trace).byKey →
        kv.2.traceAddress = kv'.2.traceAddress → kv = kv')
    ∧ (∀ p : List Int,
        (∃ kv ∈ (buildTree trace).byKey, kv.2.traceAddress = p)
          ↔ ∃ e ∈ trace, effPath e = p)
    ∧ (∀ e, (trace.filter (fun e => (effPath e).isEmpty)).getLast? = some e →
        ∃ n, alookup (buildTree trace).byKey (jsonKey []) = some n
          ∧ n.traceAddress = [] ∧ n.parentKey = none
          ∧ nodeCore n = nodeCore (nodeOfEntry e))
    ∧ (∀ kv kv', kv ∈ (buildTree trace).byKey → kv' ∈ (buildTree trace).byKey →
        kv.2.parentKey = none → kv'.2.parentKey = none → kv = kv')
    ∧ (∀ k : String, ((alookup (buildMaps trace).2 k).getD [])
        = (trace.filter (fun e => entryParentKey e = some k)).map entryKey)
    ∧ (akeys (buildGasNodes trace)).Nodup
    ∧ (∀ kv ∈ buildGasNodes trace,
        kv.1 = jsonKey kv.2.traceAddress ∧ ∃ e ∈ trace, effPath e = kv.2.traceAddress)
    ∧ (∀ k : String, ((alookup (buildGasChildren trace) k).getD [])
        = (trace.filter (fun e => entryParentKey e = some k)).map entryKey) := by
  refine ⟨buildTree_mem_spec trace, buildTree_akeys_nodup trace,
    buildTree_unique_per_path trace, buildTree_node_exists_iff trace, ?_, ?_, ?_, ?_, ?_, ?_⟩
  · -- last path-less entry wins at the root key
    intro e hlast
    have hfeq : trace.filter (fun e => (effPath e).isEmpty)
        = trace.filter (fun e => entryKey e = jsonKey []) := by
      apply List.filter_congr
      intro x _
      rcases heff : effPath x with _ | ⟨a, rest⟩
      · simp [entryKey, heff]
      · have hne : jsonKey (a :: rest) ≠ jsonKey [] := by
          intro hcontra
          exact List.cons_ne_nil a rest (jsonKey_inj hcontra)
        simp [entryKey, heff, hne]
    rw [hfeq] at hlast
    have hcore := buildTree_alookup_core trace (jsonKey [])
    rw [hlast] at hcore
    cases hlk : alookup (buildTree trace).byKey (jsonKey []) with
    | none => rw [hlk] at hcore; simp at hcore
    | some n =>
        rw [hlk] at hcore
        simp only [Option.map_some'] at hcore
        have hcoreeq : nodeCore n = nodeCore (nodeOfEntry e) := by injection hcore
        have hpred : entryKey e = jsonKey [] := by
          have := List.mem_filter.mp (mem_of_getLast?_eq hlast)
          simpa using this.2
        have heff : effPath e = [] := jsonKey_inj hpred
        refine ⟨n, rfl, ?_, ?_, hcoreeq⟩
        · have := (Prod.mk.injEq .. ▸ hcoreeq)
          simp only [nodeCore, nodeOfEntry, Prod.mk.injEq] at hcoreeq
          rw [hcoreeq.2.2.1, heff]
        · simp only [nodeCore, nodeOfEntry, Prod.mk.injEq] at hcoreeq
          rw [hcoreeq.2.1]
          simp [entryParentKey, heff]
  · -- at most one root node
    intro kv kv' h h' hpk hpk'
    have h1 := buildTree_mem_spec trace kv h
    have h2 := buildTree_mem_spec trace kv' h'
    have hta1 : kv.2.traceAddress = [] := by
      rcases hta : kv.2.traceAddress with _ | ⟨a, rest⟩
      · rfl
      · exfalso
        have := h1.2.1
        rw [hta, hpk] at this
        simp at this
    have hta2 : kv'.2.traceAddress = [] := by
      rcases hta : kv'.2.traceAddress with _ | ⟨a, rest⟩
      · rfl
      · exfalso
        have := h2.2.1
        rw [hta, hpk'] at this
        simp at this
    exact buildTree_unique_per_path trace kv kv' h h' (hta1.trans hta2.symm)
  · exact genInsert_children_lookup nodeOfEntry trace
  · -- gas builder: nodup keys
    have hbk : buildGasNodes trace
        = (gasMaps trace).1.map
            (fun kv => (kv.1, gasExclusiveUpdate (gasMaps trace) kv.1 kv.2)) := rfl
    rw [hbk, akeys_map_value]
    exact genInsert_nodes_nodup gasNodeOfEntry trace
  · -- gas builder: keyed by JSON path of some entry
    intro kv hkv
    have hbk : buildGasNodes trace
        = (gasMaps trace).1.map
            (fun kv => (kv.1, gasExclusiveUpdate (gasMaps trace) kv.1 kv.2)) := rfl
    rw [hbk] at hkv
    obtain ⟨kv0, hkv0, hkveq⟩ := List.mem_map.mp hkv
    have hnodup : (akeys (gasMaps trace).1).Nodup := genInsert_nodes_nodup gasNodeOfEntry trace
    have hl : alookup (trace.foldl (genInsert gasNodeOfEntry) ([], [])).1 kv0.1
        = some kv0.2 :=
      alookup_of_mem_nodup _ _ _ hnodup hkv0
    rw [genInsert_nodes_lookup gasNodeOfEntry trace kv0.1] at hl
    cases hlast : (trace.filter (fun e => entryKey e = kv0.1)).getLast? with
    | none => rw [hlast] at hl; simp at hl
    | some e =>
        rw [hlast] at hl
        simp only [Option.map_some'] at hl
        have hv : kv0.2 = gasNodeOfEntry e := (Option.some.inj hl).symm
        have hpred : entryKey e = kv0.1 := by
          have := List.mem_filter.mp (mem_of_getLast?_eq hlast)
          simpa using this.2
        have hmem : e ∈ trace := (List.mem_filter.mp (mem_of_getLast?_eq hlast)).1
        subst hkveq
        constructor
        · show kv0.1 = jsonKey (gasExclusiveUpdate (gasMaps trace) kv0.1 kv0.2).traceAddress
          have hta : (gasExclusiveUpdate (gasMaps trace) kv0.1 kv0.2).traceAddress
              = kv0.2.traceAddress := rfl
          rw [hta, hv]
          exact hpred.symm
        · refine ⟨e, hmem, ?_⟩
          show effPath e = (gasExclusiveUpdate (gasMaps trace) kv0.1 kv0.2).traceAddress
          have hta : (gasExclusiveUpdate (gasMaps trace) kv0.1 kv0.2).traceAddress
              = kv0.2.traceAddress := rfl
          rw [hta, hv]
          rfl
  · exact genInsert_children_lookup gasNodeOfEntry trace

/-! ### Concrete traces and nodes used by the witnesses -/

def wE0 : TraceEntry :=
  { traceAddress := some [], method := some "run", type := none, fromA := none,
    toA := none, gasUsed := .str "0x3", error := some "revert: X" }

def wE1 : TraceEntry :=
  { traceAddress := some [0], method := none, type := some "CALL", fromA := none,
    toA := none, gasUsed := .str "0x1", error := some "revert: X" }

def wTrace : List TraceEntry := [wE0, wE1]

def wRoot : TraceNode :=
  { key := "[]", parentKey := none, traceAddress := [], depth := 0,
    methodLabel := "run", fromA := none, toA := none, gasUsedBi := 3,
    exclusiveGasUsedBi := 2, children := ["[0]"], error := some "revert: X",
    errorDisplay := none }

def wChild : TraceNode :=
  { key := "[0]", parentKey := some "[]", traceAddress := [0], depth := 1,
    methodLabel := "CALL", fromA := none, toA := none, gasUsedBi := 1,
    exclusiveGasUsedBi := 1, children := [], error := some "revert: X",
    errorDisplay := some "revert: X" }

def wGasRoot : GasNode :=
  { key := "[]", parentKey := none, gasUsed := 3, exclusiveGasUsed := 2,
    methodLabel := "run", toAddress := none, traceAddress := [] }

theorem c1_exclusive_gas_clamped_witness :
    (("[]", wRoot) ∈ (buildTree wTrace).byKey
      ∧ wRoot.exclusiveGasUsedBi
          = max 0 (wRoot.gasUsedBi
              - ((resolveChildren (buildTree wTrace).byKey wRoot).map (·.gasUsedBi)).sum)
      ∧ 0 ≤ wRoot.exclusiveGasUsedBi)
    ∧ (("[]", wGasRoot) ∈ buildGasNodes wTrace
      ∧ wGasRoot.exclusiveGasUsed
          = max 0 (wGasRoot.gasUsed - gasChildrenInclusive wTrace "[]")
      ∧ 0 ≤ wGasRoot.exclusiveGasUsed) :=
  ⟨⟨by decide, (c1_exclusive_gas_clamped wTrace).1 ("[]", wRoot) (by decide)⟩,
   ⟨by decide, (c1_exclusive_gas_clamped wTrace).2 ("[]", wGasRoot) (by decide)⟩⟩

theorem c2_error_origin_unique_witness :
    ("[0]", wChild) ∈ (buildTree wTrace).byKey
    ∧ ((wChild.errorDisplay.isSome
        ↔ (jsTruthy wChild.error = true
            ∧ ∀ c ∈ resolveChildren (buildTree wTrace).byKey wChild,
                jsTruthy c.error = false))
      ∧ ∀ c ∈ resolveChildren (buildTree wTrace).byKey wChild,
          ¬(wChild.errorDisplay.isSome ∧ c.errorDisplay.isSome
              ∧ c.errorDisplay = wChild.errorDisplay)) :=
  ⟨by decide, c2_error_origin_unique wTrace ("[0]", wChild) (by decide)⟩

def wP0 : TraceEntry :=
  { traceAddress := none, method := some "first", type := none, fromA := none,
    toA := none, gasUsed := .big 5, error := none }

def wP1 : TraceEntry :=
  { traceAddress := none, method := some "second", type := none, fromA := none,
    toA := none, gasUsed := .big 7, error := none }

def wTraceP : List TraceEntry := [wP0, wP1]

theorem c10_json_path_keys_witness :
    (wTraceP.filter (fun e => (effPath e).isEmpty)).getLast? = some wP1
    ∧ ∃ n, alookup (buildTree wTraceP).byKey (jsonKey []) = some n
        ∧ n.traceAddress = [] ∧ n.parentKey = none
        ∧ nodeCore n = nodeCore (nodeOfEntry wP1) :=
  ⟨by decide, (c10_json_path_keys wTraceP).2.2.2.2.1 wP1 (by decide)⟩

/-! ### GasView totals: median and peak-vs-median (C6)

JavaScript `bigint` division truncates toward zero (`Int.tdiv`); the
final `Number(...)` conversion of the two-decimal basis value is
modelled as exact (`ℚ`). -/

/-- GasView's `median` over bigints: middle element for odd length,
bigint-truncated average of the two central elements for even length. -/
def median (values : List Int) : Int :=
  if values.isEmpty then 0
  else
    let sorted := values.insertionSort (fun a b => a ≤ b)
    let mid := sorted.length / 2
    if sorted.length % 2 = 1 then sorted.getD mid 0
    else Int.tdiv (sorted.getD (mid - 1) 0 + sorted.getD mid 0) 2

/-- `nodes.map(n => n.exclusiveGasUsed).filter(v => v > 0n)` in map
iteration order. -/
def exclusiveNonZero (trace : List TraceEntry) : List Int :=
  ((buildGasNodes trace).map (·.2.exclusiveGasUsed)).filter (fun v => 0 < v)

/-- `exclusiveNonZero.reduce((m, v) => (v > m ? v : m), 0n)` -/
def maxExclusive (trace : List TraceEntry) : Int :=
  (exclusiveNonZero trace).foldl (fun m v => if m < v then v else m) 0

/-- `p50 > 0n ? Number((maxExclusive * 100n) / p50) / 100 : 0` -/
def maxVsMedian (trace : List TraceEntry) : ℚ :=
  let p50 := median (exclusiveNonZero trace)
  if 0 < p50 then ((Int.tdiv (maxExclusive trace * 100) p50 : Int) : ℚ) / 100 else 0

/-- The spec's median: the exact arithmetic mean of the two central
values for an even-sized set (stated for comparison with `median`). -/
def specMedianRat (values : List Int) : ℚ :=
  if values.isEmpty then 0
  else
    let sorted := values.insertionSort (fun a b => a ≤ b)
    let mid := sorted.length / 2
    if sorted.length % 2 = 1 then (sorted.getD mid 0 : ℚ)
    else ((sorted.getD (mid - 1) 0 : ℚ) + (sorted.getD mid 0 : ℚ)) / 2

/-- The spec's `peakVsMedian`: the exact quotient of the largest
exclusive gas value by the (exact-mean) median of the positive values. -/
def specPeakVsMedian (trace : List TraceEntry) : ℚ :=
  if exclusiveNonZero trace = [] then 0
  else (maxExclusive trace : ℚ) / specMedianRat (exclusiveNonZero trace)

/-- C6 counterexample: a root of 3 gas with one child of 1 gas has
exclusive values {2, 1}; the code reports 2.00×, but the claim's exact
formula gives 2 / (3/2) = 4/3. -/
theorem c6_counterexample :
    maxVsMedian wTrace = 2 ∧ specPeakVsMedian wTrace = 4 / 3
      ∧ (2 : ℚ) ≠ 4 / 3 := by
  have hvals : exclusiveNonZero wTrace = [2, 1] := by decide
  have hmed : median (exclusiveNonZero wTrace) = 1 := by decide
  have hmax : maxExclusive wTrace = 2 := by decide
  have hsort : (([2, 1] : List Int).insertionSort (fun a b => a ≤ b)) = [1, 2] := by decide
  refine ⟨?_, ?_, by norm_num⟩
  · simp only [maxVsMedian, hmed, hmax]
    norm_num
  · simp only [specPeakVsMedian, specMedianRat, hvals, hsort]
    rw [if_neg (by simp), hmax]
    norm_num

theorem getD_mem_of_lt {α : Type} :
    ∀ (l : List α) (i : Nat) (d : α), i < l.length → l.getD i d ∈ l := by
  intro l
  induction l with
  | nil => intro i d h; simp at h
  | cons a l ih =>
      intro i d h
      cases i with
      | zero => simp [List.getD]
      | succ j =>
          have := ih j d (by simpa using h)
          simp only [List.getD] at this ⊢
          simpa using Or.inr this

theorem floor_intCast_div_intCast_of_pos {n m : Int} (hm : 0 < m) :
    ⌊(n : ℚ) / (m : ℚ)⌋ = n / m := by
  obtain ⟨d, rfl⟩ : ∃ d : ℕ, m = (d : ℤ) := ⟨m.toNat, by omega⟩
  exact_mod_cast Rat.floor_intCast_div_natCast n d

theorem maxExclusive_nonneg (trace : List TraceEntry) : 0 ≤ maxExclusive trace := by
  unfold maxExclusive
  have : ∀ (l : List Int) (a : Int),
      a ≤ l.foldl (fun m v => if m < v then v else m) a := by
    intro l
    induction l with
    | nil => intro a; simp
    | cons b l ih =>
        intro a
        simp only [List.foldl_cons]
        by_cases h : a < b
        · simp only [h, if_true]
          exact le_of_lt (lt_of_lt_of_le h (ih b))
        · simp only [h, if_false]
          exact ih a
  exact this (exclusiveNonZero trace) 0

/-- C6 amended: the positive-exclusive median the code uses is the
*floor* of the exact mean for even-sized sets, and `maxVsMedian` is the
exact ratio scaled to basis points and truncated to two decimals
(`⌊100·max/median⌋ / 100`); 0 when no positive values exist. -/
theorem c6_peak_vs_median_truncated (trace : List TraceEntry) :
    (exclusiveNonZero trace = [] → maxVsMedian trace = 0)
    ∧ (exclusiveNonZero trace ≠ [] →
        0 < median (exclusiveNonZero trace)
        ∧ median (exclusiveNonZero trace) = ⌊specMedianRat (exclusiveNonZero trace)⌋
        ∧ maxVsMedian trace
            = (⌊(maxExclusive trace : ℚ) * 100
                / (median (exclusiveNonZero trace) : ℚ)⌋ : ℚ) / 100) := by
  constructor
  · intro hempty
    unfold maxVsMedian
    rw [hempty]
    simp [median]
  · intro hne
    set vals := exclusiveNonZero trace with hvals
    have hpos : ∀ v ∈ vals, 0 < v := by
      intro v hv
      rw [hvals] at hv
      unfold exclusiveNonZero at hv
      exact of_decide_eq_true (List.mem_filter.mp hv).2
    set sorted := vals.insertionSort (fun a b => a ≤ b) with hsorted
    have hperm : sorted.Perm vals := List.perm_insertionSort _ _
    have hlen : sorted.length = vals.length := hperm.length_eq
    have hlenpos : 0 < sorted.length := by
      rw [hlen]
      exact List.length_pos.mpr hne
    have hposs : ∀ v ∈ sorted, 0 < v := fun v hv => hpos v (hperm.mem_iff.mp hv)
    have hnotempty : vals.isEmpty = false := by
      cases hv : vals with
      | nil => exact absurd hv hne
      | cons a l => rfl
    have hmid : sorted.length / 2 < sorted.length := Nat.div_lt_self hlenpos (by omega)
    have hmid1 : sorted.length / 2 - 1 < sorted.length := by omega
    have ha := hposs _ (getD_mem_of_lt sorted (sorted.length / 2 - 1) 0 hmid1)
    have hb := hposs _ (getD_mem_of_lt sorted (sorted.length / 2) 0 hmid)
    have hmedian_pos : 0 < median vals ∧ median vals = ⌊specMedianRat vals⌋ := by
      unfold median specMedianRat
      rw [hnotempty]
      simp only [Bool.false_eq_true, if_false, ← hsorted]
      by_cases hodd : sorted.length % 2 = 1
      · simp only [hodd, if_true]
        exact ⟨hb, by rw [Int.floor_intCast]⟩
      · simp only [hodd, if_false]
        have hcast : ((sorted.getD (sorted.length / 2 - 1) 0 : ℚ)
              + (sorted.getD (sorted.length / 2) 0 : ℚ)) / 2
            = ((sorted.getD (sorted.length / 2 - 1) 0
                + sorted.getD (sorted.length / 2) 0 : Int) : ℚ) / ((2 : ℕ) : ℚ) := by
          push_cast
          ring
        have htdiv : Int.tdiv (sorted.getD (sorted.length / 2 - 1) 0
              + sorted.getD (sorted.length / 2) 0) 2
            = (sorted.getD (sorted.length / 2 - 1) 0
                + sorted.getD (sorted.length / 2) 0) / 2 :=
          Int.tdiv_eq_ediv (by omega) (by omega)
        constructor
        · rw [htdiv]
          have h2 : (2 : Int) ≤ sorted.getD (sorted.length / 2 - 1) 0
              + sorted.getD (sorted.length / 2) 0 := by omega
          omega
        · rw [hcast, Rat.floor_intCast_div_natCast, htdiv]
          norm_num
    refine ⟨hmedian_pos.1, hmedian_pos.2, ?_⟩
    unfold maxVsMedian
    rw [← hvals]
    simp only [hmedian_pos.1, if_true]
    have hmax := maxExclusive_nonneg trace
    have htdiv : Int.tdiv (maxExclusive trace * 100) (median vals)
        = (maxExclusive trace * 100) / median vals :=
      Int.tdiv_eq_ediv (by positivity) (by omega)
    have hfloor : ⌊(maxExclusive trace : ℚ) * 100 / (median vals : ℚ)⌋
        = (maxExclusive trace * 100) / median vals := by
      have hc : (maxExclusive trace : ℚ) * 100 = ((maxExclusive trace * 100 : Int) : ℚ) := by
        push_cast
        ring
      rw [hc, floor_intCast_div_intCast_of_pos hmedian_pos.1]
    rw [htdiv, hfloor]

theorem c6_peak_vs_median_truncated_witness :
    exclusiveNonZero wTrace ≠ []
    ∧ (0 < median (exclusiveNonZero wTrace)
      ∧ median (exclusiveNonZero wTrace) = ⌊specMedianRat (exclusiveNonZero wTrace)⌋
      ∧ maxVsMedian wTrace
          = (⌊(maxExclusive wTrace : ℚ) * 100
              / (median (exclusiveNonZero wTrace) : ℚ)⌋ : ℚ) / 100) :=
  ⟨by decide, (c6_peak_vs_median_truncated wTrace).2 (by decide)⟩

/-! ### Flow Aggregator (AssetsView.tsx) — C7, C8

`parseUsd` first strips every comma, then applies `Number.parseFloat`
(longest valid decimal literal, leading whitespace and sign allowed,
trailing garbage ignored), and keeps only finite results.  Floats are
modelled as exact rationals. -/

/-- `v.trim()` when `v` is a non-blank string, else `undefined`
(returns the trimmed string, unlike `nonBlank`). -/
def safeText : Option String → Option String
  | some s => if (jsTrim s).length ≠ 0 then some (jsTrim s) else none
  | none => none

/-- JavaScript `toLowerCase` (ASCII model). -/
def jsToLower (s : String) : String := String.mk (s.data.map Char.toLower)

/-- Exponent part after `e`/`E`: `none` when no digits follow, in which
case `parseFloat` ignores the exponent marker. -/
def parseExp (r : List Char) : Option Int :=
  let pair : Int × List Char :=
    match r with
    | '-' :: t => (-1, t)
    | '+' :: t => (1, t)
    | _ => (1, r)
  let ds := pair.2.takeWhile Char.isDigit
  if ds.isEmpty then none else some (pair.1 * (parseDecNat ds : Int))

/-- `Number.parseFloat` restricted to finite results (`Infinity` and a
digit-free input give `none`, as `Number.isFinite` rejects them). -/
def jsParseFloatFinite (s : String) : Option ℚ :=
  let cs := s.data.dropWhile jsIsSpace
  let signed : ℚ × List Char :=
    match cs with
    | '-' :: rest => (-1, rest)
    | '+' :: rest => (1, rest)
    | _ => (1, cs)
  if signed.2.take 8 = "Infinity".data then none
  else
    let intPart := signed.2.takeWhile Char.isDigit
    let rest1 := signed.2.dropWhile Char.isDigit
    let fracRest : List Char × List Char :=
      match rest1 with
      | '.' :: r => (r.takeWhile Char.isDigit, r.dropWhile Char.isDigit)
      | _ => ([], rest1)
    if intPart.isEmpty && fracRest.1.isEmpty then none
    else
      let mantissa : ℚ :=
        (parseDecNat intPart : ℚ) + (parseDecNat fracRest.1 : ℚ) / (10 : ℚ) ^ fracRest.1.length
      let exp : Option Int :=
        match fracRest.2 with
        | 'e' :: r => parseExp r
        | 'E' :: r => parseExp r
        | _ => some 0
      match exp with
      | some e => some (signed.1 * mantissa * (10 : ℚ) ^ e)
      | none => some (signed.1 * mantissa)

/-- `parseUsd`: empty/absent is falsy; commas are stripped; only finite
parse results count. -/
def parseUsd : Option String → Option ℚ
  | none => none
  | some v =>
      if v = "" then none
      else jsParseFloatFinite (String.mk (v.data.filter (fun c => c ≠ ',')))

structure AssetInfoM where
  symbol : Option String
  name : Option String
  logo : Option String
deriving Repr, DecidableEq

/-- The fields of an asset-change record the Flow Aggregator reads
(`none` models a missing or non-string runtime value). -/
structure AssetChange where
  assetInfo : Option AssetInfoM
  fromA : Option String
  toA : Option String
  dollarValue : Option String
deriving Repr, DecidableEq

structure ParticipantAgg where
  address : String
  inUsd : ℚ
  outUsd : ℚ
deriving Repr, DecidableEq

structure TokenAgg where
  key : String
  symbol : String
  name : Option String
  logo : Option String
  usd : ℚ
  count : Nat
deriving Repr, DecidableEq

structure StatsAcc where
  receivedUsd : ℚ
  sentUsd : ℚ
  totalVolumeUsd : ℚ
  byToken : List (String × TokenAgg)
  byParticipant : List (String × ParticipantAgg)
  flowPoints : List ℚ
  cumulativeNet : ℚ
deriving Repr, DecidableEq

def initStats : StatsAcc :=
  { receivedUsd := 0, sentUsd := 0, totalVolumeUsd := 0, byToken := [],
    byParticipant := [], flowPoints := [], cumulativeNet := 0 }

/-- `sentUsd` / `receivedUsd` accumulation when an actor is set. -/
def addActorTotals (actorLower : Option String) (fromLower toLower : Option String)
    (usd : ℚ) (st : StatsAcc) : StatsAcc :=
  match actorLower with
  | some _ =>
      let st1 := if fromLower = actorLower then { st with sentUsd := st.sentUsd + usd } else st
      if toLower = actorLower then { st1 with receivedUsd := st1.receivedUsd + usd } else st1
  | none => st

/-- `byParticipant` sender leg. -/
def addParticipantOut (fromT : Option String) (usd : ℚ) (st : StatsAcc) : StatsAcc :=
  match fromT with
  | some f =>
      let fl := jsToLower f
      let existing := (alookup st.byParticipant fl).getD { address := f, inUsd := 0, outUsd := 0 }
      { st with byParticipant :=
          mapSet st.byParticipant fl { existing with outUsd := existing.outUsd + usd } }
  | none => st

/-- `byParticipant` recipient leg. -/
def addParticipantIn (toT : Option String) (usd : ℚ) (st : StatsAcc) : StatsAcc :=
  match toT with
  | some t =>
      let tl := jsToLower t
      let existing := (alookup st.byParticipant tl).getD { address := t, inUsd := 0, outUsd := 0 }
      { st with byParticipant :=
          mapSet st.byParticipant tl { existing with inUsd := existing.inUsd + usd } }
  | none => st

/-- Per-token ledger keyed by `symbol || name || "Unknown"`. -/
def addToken (c : AssetChange) (usd : ℚ) (st : StatsAcc) : StatsAcc :=
  let symbol := safeText (c.assetInfo.bind (·.symbol))
  let name := safeText (c.assetInfo.bind (·.name))
  let logo := safeText (c.assetInfo.bind (·.logo))
  let key := symbol.getD (name.getD "Unknown")
  let token := (alookup st.byToken key).getD
    { key := key, symbol := symbol.getD key, name := name, logo := logo, usd := 0, count := 0 }
  { st with byToken :=
      mapSet st.byToken key { token with usd := token.usd + usd, count := token.count + 1 } }

/-- Flow series: cumulative net with an actor, per-change volume without. -/
def addFlowPoint (actorLower : Option String) (fromLower toLower : Option String)
    (usd : ℚ) (st : StatsAcc) : StatsAcc :=
  match actorLower with
  | some _ =>
      let delta := ((if toLower = actorLower then usd else 0) - (if fromLower = actorLower then usd else 0) : ℚ)
      { st with
          cumulativeNet := st.cumulativeNet + delta
          flowPoints := st.flowPoints ++ [st.cumulativeNet + delta] }
  | none => { st with flowPoints := st.flowPoints ++ [usd] }

/-- One iteration of the stats loop: records with an absent/unparsable
or zero USD magnitude are skipped entirely (`continue`). -/
def processChange (actorLower : Option String) (st : StatsAcc) (c : AssetChange) : StatsAcc :=
  match parseUsd c.dollarValue with
  | none => st
  | some usdRaw =>
      let usd := |usdRaw|
      if usd ≤ 0 then st
      else
        let fromT := safeText c.fromA
        let toT := safeText c.toA
        let fromLower := fromT.map jsToLower
        let toLower := toT.map jsToLower
        let st1 := { st with totalVolumeUsd := st.totalVolumeUsd + usd }
        let st2 := addActorTotals actorLower fromLower toLower usd st1
        let st3 := addParticipantOut fromT usd st2
        let st4 := addParticipantIn toT usd st3
        let st5 := addToken c usd st4
        addFlowPoint actorLower fromLower toLower usd st5

def computeStats (actorLower : Option String) (changes : List AssetChange) : StatsAcc :=
  changes.foldl (processChange actorLower) initStats

/-- `transfersRanked`: every record, ranked by |USD| descending
(unparsable treated as 0; the record itself is kept). -/
def transfersRanked (changes : List AssetChange) : List (AssetChange × ℚ) :=
  (changes.map (fun c => (c, |(parseUsd c.dollarValue).getD 0|))).insertionSort
    (fun a b => b.2 ≤ a.2)

def sumInUsd (st : StatsAcc) : ℚ := (st.byParticipant.map (·.2.inUsd)).sum

def sumOutUsd (st : StatsAcc) : ℚ := (st.byParticipant.map (·.2.outUsd)).sum

/-! ### C8: participant conservation -/

theorem sumIn_mapSet :
    ∀ (m : List (String × ParticipantAgg)) (k : String) (v : ParticipantAgg),
      ((mapSet m k v).map (fun x => x.2.inUsd)).sum
        = (m.map (fun x => x.2.inUsd)).sum + v.inUsd
          - (match alookup m k with | some old => old.inUsd | none => 0) := by
  intro m
  induction m with
  | nil => intro k v; simp [mapSet, alookup]
  | cons hd tl ih =>
      intro k v
      obtain ⟨k', w⟩ := hd
      by_cases h : k' = k
      · subst h
        simp [mapSet, alookup]
        ring
      · simp only [mapSet, h, if_false, List.map_cons, List.sum_cons, alookup]
        rw [ih]
        ring

theorem sumOut_mapSet :
    ∀ (m : List (String × ParticipantAgg)) (k : String) (v : ParticipantAgg),
      ((mapSet m k v).map (fun x => x.2.outUsd)).sum
        = (m.map (fun x => x.2.outUsd)).sum + v.outUsd
          - (match alookup m k with | some old => old.outUsd | none => 0) := by
  intro m
  induction m with
  | nil => intro k v; simp [mapSet, alookup]
  | cons hd tl ih =>
      intro k v
      obtain ⟨k', w⟩ := hd
      by_cases h : k' = k
      · subst h
        simp [mapSet, alookup]
        ring
      · simp only [mapSet, h, if_false, List.map_cons, List.sum_cons, alookup]
        rw [ih]
        ring

theorem addParticipantOut_sums (fromT : Option String) (usd : ℚ) (st : StatsAcc) :
    sumInUsd (addParticipantOut fromT usd st) = sumInUsd st
    ∧ sumOutUsd (addParticipantOut fromT usd st)
        = sumOutUsd st + (match fromT with | some _ => usd | none => 0) := by
  cases fromT with
  | none => simp [addParticipantOut]
  | some f =>
      unfold addParticipantOut sumInUsd sumOutUsd
      constructor
      · rw [sumIn_mapSet]
        cases hl : alookup st.byParticipant (jsToLower f) with
        | none => simp [hl]
        | some old => simp [hl]
      · rw [sumOut_mapSet]
        cases hl : alookup st.byParticipant (jsToLower f) with
        | none => simp [hl]
        | some old => simp [hl]; ring

theorem addParticipantIn_sums (toT : Option String) (usd : ℚ) (st : StatsAcc) :
    sumOutUsd (addParticipantIn toT usd st) = sumOutUsd st
    ∧ sumInUsd (addParticipantIn toT usd st)
        = sumInUsd st + (match toT with | some _ => usd | none => 0) := by
  cases toT with
  | none => simp [addParticipantIn]
  | some t =>
      unfold addParticipantIn sumInUsd sumOutUsd
      constructor
      · rw [sumOut_mapSet]
        cases hl : alookup st.byParticipant (jsToLower t) with
        | none => simp [hl]
        | some old => simp [hl]
      · rw [sumIn_mapSet]
        cases hl : alookup st.byParticipant (jsToLower t) with
        | none => simp [hl]
        | some old => simp [hl]; ring

theorem addActorTotals_byParticipant (actorLower fromLower toLower : Option String)
    (usd : ℚ) (st : StatsAcc) :
    (addActorTotals actorLower fromLower toLower usd st).byParticipant = st.byParticipant := by
  unfold addActorTotals
  cases actorLower with
  | none => rfl
  | some a =>
      by_cases h1 : fromLower = some a <;> by_cases h2 : toLower = some a <;>
        simp [h1, h2]

theorem addToken_byParticipant (c : AssetChange) (usd : ℚ) (st : StatsAcc) :
    (addToken c usd st).byParticipant = st.byParticipant := rfl

theorem addFlowPoint_byParticipant (actorLower fromLower toLower : Option String)
    (usd : ℚ) (st : StatsAcc) :
    (addFlowPoint actorLower fromLower toLower usd st).byParticipant = st.byParticipant := by
  unfold addFlowPoint
  cases actorLower with
  | none => rfl
  | some a => rfl

theorem sumInUsd_congr {st st' : StatsAcc} (h : st.byParticipant = st'.byParticipant) :
    sumInUsd st = sumInUsd st' := by unfold sumInUsd; rw [h]

theorem sumOutUsd_congr {st st' : StatsAcc} (h : st.byParticipant = st'.byParticipant) :
    sumOutUsd st = sumOutUsd st' := by unfold sumOutUsd; rw [h]

theorem processChange_conserves (actorLower : Option String) (c : AssetChange)
    (st : StatsAcc) (hfrom : (safeText c.fromA).isSome) (hto : (safeText c.toA).isSome) :
    sumInUsd (processChange actorLower st c) - sumOutUsd (processChange actorLower st c)
      = sumInUsd st - sumOutUsd st := by
  unfold processChange
  cases hp : parseUsd c.dollarValue with
  | none => simp
  | some usdRaw =>
      simp only
      by_cases hz : |usdRaw| ≤ 0
      · simp [hz]
      · simp only [hz, if_false]
        obtain ⟨f, hf⟩ := Option.isSome_iff_exists.mp hfrom
        obtain ⟨t, ht⟩ := Option.isSome_iff_exists.mp hto
        set st1 : StatsAcc := { st with totalVolumeUsd := st.totalVolumeUsd + |usdRaw| } with hst1
        set st2 := addActorTotals actorLower ((safeText c.fromA).map jsToLower)
          ((safeText c.toA).map jsToLower) |usdRaw| st1 with hst2
        set st3 := addParticipantOut (safeText c.fromA) |usdRaw| st2 with hst3
        set st4 := addParticipantIn (safeText c.toA) |usdRaw| st3 with hst4
        set st5 := addToken c |usdRaw| st4 with hst5
        have h12 : st2.byParticipant = st1.byParticipant :=
          addActorTotals_byParticipant _ _ _ _ _
        have h11 : st1.byParticipant = st.byParticipant := rfl
        have h5 : st5.byParticipant = st4.byParticipant := rfl
        have hflow := addFlowPoint_byParticipant actorLower
          ((safeText c.fromA).map jsToLower) ((safeText c.toA).map jsToLower) |usdRaw| st5
        rw [sumInUsd_congr hflow, sumOutUsd_congr hflow,
          sumInUsd_congr h5, sumOutUsd_congr h5]
        have hout := addParticipantOut_sums (safeText c.fromA) |usdRaw| st2
        have hin := addParticipantIn_sums (safeText c.toA) |usdRaw| st3
        rw [← hst3] at hout
        rw [← hst4] at hin
        rw [hin.1, hin.2, hout.1, hout.2]
        rw [sumInUsd_congr (h12.trans h11), sumOutUsd_congr (h12.trans h11)]
        rw [hf, ht]
        ring

/-- C8.  When every record carries both a sender and a recipient (and a
parseable USD magnitude), total `inUsd` equals total `outUsd`. -/
theorem c8_participant_conservation (actorLower : Option String)
    (changes : List AssetChange)
    (h : ∀ c ∈ changes, (safeText c.fromA).isSome ∧ (safeText c.toA).isSome
        ∧ (parseUsd c.dollarValue).isSome) :
    sumInUsd (computeStats actorLower changes)
      = sumOutUsd (computeStats actorLower changes) := by
  have hgen : ∀ (l : List AssetChange) (st : StatsAcc),
      (∀ c ∈ l, (safeText c.fromA).isSome ∧ (safeText c.toA).isSome) →
      sumInUsd (l.foldl (processChange actorLower) st)
          - sumOutUsd (l.foldl (processChange actorLower) st)
        = sumInUsd st - sumOutUsd st := by
    intro l
    induction l with
    | nil => intro st _; rfl
    | cons c l ih =>
        intro st hl
        simp only [List.foldl_cons]
        rw [ih _ (fun x hx => hl x (List.mem_cons_of_mem c hx))]
        exact processChange_conserves actorLower c st
          (hl c (List.mem_cons_self c l)).1 (hl c (List.mem_cons_self c l)).2
  have := hgen changes initStats (fun c hc => ⟨(h c hc).1, (h c hc).2.1⟩)
  unfold computeStats
  have hinit : sumInUsd initStats - sumOutUsd initStats = 0 := by
    simp [sumInUsd, sumOutUsd, initStats]
  rw [hinit] at this
  linarith [this]

def c8w : AssetChange :=
  { assetInfo := none, fromA := some "0xA", toA := some "0xB",
    dollarValue := some "10" }

def c8batch : List AssetChange := [c8w]

theorem c8_participant_conservation_witness :
    (∀ c ∈ c8batch, (safeText c.fromA).isSome ∧ (safeText c.toA).isSome
        ∧ (parseUsd c.dollarValue).isSome)
    ∧ sumInUsd (computeStats none c8batch) = sumOutUsd (computeStats none c8batch) :=
  ⟨by decide, c8_participant_conservation none c8batch (by decide)⟩

/-! ### C7: records without a parseable USD magnitude -/

def c7rec : AssetChange :=
  { assetInfo := some { symbol := some "ABC", name := none, logo := none },
    fromA := some "0xA", toA := some "0xB", dollarValue := none }

/-- C7 counterexample: a transfer of token "ABC" without a USD value is
absent from the per-token ledger entirely — its transfer count is not
recorded, contrary to the claim. -/
theorem c7_counterexample :
    parseUsd c7rec.dollarValue = none ∧ (computeStats none [c7rec]).byToken = [] :=
  ⟨rfl, rfl⟩

theorem processChange_skip (actorLower : Option String) (st : StatsAcc)
    (c : AssetChange) (h : parseUsd c.dollarValue = none) :
    processChange actorLower st c = st := by
  unfold processChange
  rw [h]

/-- C7 amended: a record whose USD magnitude is absent or unparsable is
excluded from *all* stats aggregates, the monetary ones and the
count-based per-token ledger alike; it still occupies its slot in the
ranked transfers listing (with USD treated as 0). -/
theorem c7_unparsable_excluded (actorLower : Option String)
    (pre post : List AssetChange) (c : AssetChange)
    (h : parseUsd c.dollarValue = none) :
    computeStats actorLower (pre ++ c :: post) = computeStats actorLower (pre ++ post)
    ∧ (transfersRanked (pre ++ c :: post)).length = (pre ++ c :: post).length := by
  constructor
  · unfold computeStats
    rw [List.foldl_append, List.foldl_append, List.foldl_cons,
      processChange_skip actorLower _ c h]
  · unfold transfersRanked
    rw [List.length_insertionSort, List.length_map]

theorem c7_unparsable_excluded_witness :
    parseUsd c7rec.dollarValue = none
    ∧ (computeStats none ([] ++ c7rec :: [c8w]) = computeStats none ([] ++ [c8w])
      ∧ (transfersRanked ([] ++ c7rec :: [c8w])).length = ([] ++ c7rec :: [c8w]).length) :=
  ⟨rfl, c7_unparsable_excluded none [] [c8w] c7rec rfl⟩

/-! ### C9: history timestamp extraction

The history reconciler lives in application code that is only quoted in
the project README; the definitions below are modelled from that spec.
`Date.parse` and `Date.now` are environment functions and enter as
parameters (`dateParse` returns `none` for NaN). -/

/-- A runtime value fed to the timestamp helpers: a finite number, a
non-finite number, a string, or anything else (including `undefined`). -/
inductive TsVal where
  | num (q : ℚ)
  | nan
  | str (s : String)
  | missing
deriving Repr, DecidableEq

/-- Modelled from the spec: `safeString` — a non-blank string yields its
trimmed form, everything else `undefined`. -/
def safeString : TsVal → Option String
  | .str s => if (jsTrim s).length ≠ 0 then some (jsTrim s) else none
  | _ => none

/-- Modelled from the spec: `parseTimestampMs` — finite numbers under
ten billion are seconds and scaled by 1000, larger ones are already
milliseconds; non-blank strings go through `Date.parse`; anything else
is `undefined`. -/
def parseTimestampMs (dateParse : String → Option ℚ) : TsVal → Option ℚ
  | .num q => some (if q < 10000000000 then q * 1000 else q)
  | .nan => none
  | .str s => if (jsTrim s).length ≠ 0 then dateParse s else none
  | .missing => none

/-- The timestamp-bearing fields `toHistoryItem` inspects. -/
structure HistTimestampSrc where
  simCreatedAt : TsVal
  objCreatedAt : TsVal
  objCreatedAtCamel : TsVal
  objTimestamp : TsVal
deriving Repr, DecidableEq

/-- `safeString(sim.created_at) || safeString(obj.created_at) ||
safeString(obj.createdAt)` (non-empty strings are truthy). -/
def createdAtOf (src : HistTimestampSrc) : Option String :=
  ((safeString src.simCreatedAt).orElse
    (fun _ => (safeString src.objCreatedAt).orElse
      (fun _ => safeString src.objCreatedAtCamel)))

def tsOfOpt : Option String → TsVal
  | some s => .str s
  | none => .missing

/-- JavaScript `a || b` for a number-or-undefined `a`: `0` is falsy. -/
def jsOrNum (a b : Option ℚ) : Option ℚ :=
  match a with
  | some x => if x = 0 then b else some x
  | none => b

/-- Modelled from the spec: the timestamp of a history item —
`parseTimestampMs(createdAt) || parseTimestampMs(obj.timestamp) ||
parseTimestampMs(sim.created_at) || Date.now()`. -/
def historyTimestamp (dateParse : String → Option ℚ) (now : ℚ)
    (src : HistTimestampSrc) : ℚ :=
  let t1 := parseTimestampMs dateParse (tsOfOpt (createdAtOf src))
  let t2 := parseTimestampMs dateParse src.objTimestamp
  let t3 := parseTimestampMs dateParse src.simCreatedAt
  match jsOrNum (jsOrNum t1 t2) t3 with
  | some x => if x = 0 then now else x
  | none => now

/-- C9.  Numeric values under ten billion are scaled seconds→ms, larger
ones pass through; non-blank strings are calendar-parsed (undefined when
unparseable); when nothing derives a timestamp the item falls back to
the current time. -/
theorem c9_timestamp_extraction (dateParse : String → Option ℚ) (now : ℚ) :
    (∀ q : ℚ, q < 10000000000 → parseTimestampMs dateParse (.num q) = some (q * 1000))
    ∧ (∀ q : ℚ, 10000000000 ≤ q → parseTimestampMs dateParse (.num q) = some q)
    ∧ (∀ s : String, (jsTrim s).length ≠ 0 →
        parseTimestampMs dateParse (.str s) = dateParse s)
    ∧ (∀ s : String, dateParse s = none → parseTimestampMs dateParse (.str s) = none)
    ∧ (∀ src : HistTimestampSrc,
        parseTimestampMs dateParse (tsOfOpt (createdAtOf src)) = none →
        parseTimestampMs dateParse src.objTimestamp = none →
        parseTimestampMs dateParse src.simCreatedAt = none →
        historyTimestamp dateParse now src = now) := by
  refine ⟨?_, ?_, ?_, ?_, ?_⟩
  · intro q hq
    simp [parseTimestampMs, hq]
  · intro q hq
    simp [parseTimestampMs, not_lt.mpr hq]
  · intro s hs
    simp [parseTimestampMs, hs]
  · intro s hs
    unfold parseTimestampMs
    by_cases h : (jsTrim s).length ≠ 0 <;> simp [h, hs]
  · intro src h1 h2 h3
    unfold historyTimestamp
    rw [h1, h2, h3]
    rfl

theorem c9_timestamp_extraction_witness :
    ((5 : ℚ) < 10000000000
      ∧ parseTimestampMs (fun _ => none) (.num 5) = some (5 * 1000))
    ∧ ((10000000000 : ℚ) ≤ 20000000000
      ∧ parseTimestampMs (fun _ => none) (.num 20000000000) = some 20000000000)
    ∧ (parseTimestampMs (fun _ => none)
        (tsOfOpt (createdAtOf ⟨.missing, .missing, .missing, .missing⟩)) = none
      ∧ historyTimestamp (fun _ => none) 777 ⟨.missing, .missing, .missing, .missing⟩ = 777) := by
  refine ⟨⟨by norm_num, ?_⟩, ⟨by norm_num, ?_⟩, ⟨rfl, ?_⟩⟩
  · exact (c9_timestamp_extraction (fun _ => none) 777).1 5 (by norm_num)
  · exact (c9_timestamp_extraction (fun _ => none) 777).2.1 20000000000 (by norm_num)
  · exact (c9_timestamp_extraction (fun _ => none) 777).2.2.2.2
      ⟨.missing, .missing, .missing, .missing⟩ rfl rfl rfl

/-! ### Response Normalizer (src/lib/format.ts) — C3, C4, C5

JSON runtime values.  `undef` models JavaScript `undefined` stored in an
object field (`{a: undefined}` differs from `{}` for the `in` operator);
an absent key reads as `undef`.  Objects are insertion-ordered field
lists; assignment (`mapSet`) replaces in place or appends. -/

inductive JVal where
  | undef
  | jnull
  | bool (b : Bool)
  | num (q : ℚ)
  | str (s : String)
  | arr (xs : List JVal)
  | obj (fs : List (String × JVal))

/-- Property read: the stored value, or `undefined` for an absent key. -/
def getk (fs : List (String × JVal)) (k : String) : JVal := ((alookup fs k).getD .undef)

/-- `Boolean(value) && typeof value === "object" && !Array.isArray(value)` -/
def isRecord : JVal → Bool
  | .obj _ => true
  | _ => false

def asObj : JVal → Option (List (String × JVal))
  | .obj fs => some fs
  | _ => none

/-- `pick(obj, ...keys)`: the first value that is not `undefined`. -/
def pickL (fs : List (String × JVal)) : List String → JVal
  | [] => .undef
  | k :: ks =>
      match getk fs k with
      | .undef => pickL fs ks
      | v => v

/-- `(o ? pick(o, ...keys) : undefined)` -/
def optPick (o : Option (List (String × JVal))) (ks : List String) : JVal :=
  match o with
  | some fs => pickL fs ks
  | none => .undef

def jsNullish : JVal → Bool
  | .undef => true
  | .jnull => true
  | _ => false

/-- `a ?? b` (associative, so the nested form matches the source's
left-associated chains). -/
def jsOrJ (a b : JVal) : JVal := if jsNullish a then b else a

/-- `if (v !== undefined) out[k] = v` -/
def setIfDef (fs : List (String × JVal)) (k : String) (v : JVal) :
    List (String × JVal) :=
  match v with
  | .undef => fs
  | _ => mapSet fs k v

/-- `if (xs !== undefined) out[k] = xs` for a normalized array. -/
def setIfSome (fs : List (String × JVal)) (k : String) (o : Option (List JVal)) :
    List (String × JVal) :=
  match o with
  | some xs => mapSet fs k (.arr xs)
  | none => fs

/-- `k in obj` -/
def hasKey (fs : List (String × JVal)) (k : String) : Bool := (alookup fs k).isSome

def normalizeDecodedParam (v : JVal) : Option JVal :=
  match asObj v with
  | none => none
  | some fs => some (.obj (setIfDef fs "indexed" (pickL fs ["indexed", "is_indexed"])))

def normalizeDecodedParams (v : JVal) : Option (List JVal) :=
  match v with
  | .arr xs => some (xs.filterMap normalizeDecodedParam)
  | _ => none

def normalizeTraceEntry (v : JVal) : Option JVal :=
  match asObj v with
  | none => none
  | some fs =>
      let out := setIfDef fs "gasUsed" (pickL fs ["gasUsed", "gas_used"])
      let out := setIfDef out "traceAddress" (pickL fs ["traceAddress", "trace_address"])
      let out := setIfSome out "decodedInput"
        (normalizeDecodedParams (pickL fs ["decodedInput", "decoded_input"]))
      let out := setIfSome out "decodedOutput"
        (normalizeDecodedParams (pickL fs ["decodedOutput", "decoded_output"]))
      some (.obj out)

def normalizeTrace (v : JVal) : Option (List JVal) :=
  match v with
  | .arr xs => some (xs.filterMap normalizeTraceEntry)
  | _ => none

def normalizeLog (v : JVal) : Option JVal :=
  match asObj v with
  | none => none
  | some fs =>
      let out := setIfSome fs "inputs"
        (normalizeDecodedParams (pickL fs ["inputs", "decoded_inputs"]))
      let out := setIfDef out "raw" (pickL fs ["raw", "raw_log"])
      some (.obj out)

def normalizeLogs (v : JVal) : Option (List JVal) :=
  match v with
  | .arr xs => some (xs.filterMap normalizeLog)
  | _ => none

def normalizeValueChange (v : JVal) : Option JVal :=
  match asObj v with
  | none => none
  | some fs =>
      let previousValue := pickL fs ["previousValue", "previous_value"]
      let newValue := pickL fs ["newValue", "new_value"]
      match previousValue, newValue with
      | .undef, .undef => none
      | _, _ => some (.obj [("previousValue", previousValue), ("newValue", newValue)])

/-- One storage slot: `{...s, ...(prev !== undefined ? {previousValue:
prev} : null), ...(next !== undefined ? {newValue: next} : null)}`;
non-records pass through unchanged. -/
def normalizeStorageSlot (s : JVal) : JVal :=
  match asObj s with
  | none => s
  | some sf =>
      .obj (setIfDef (setIfDef sf "previousValue" (pickL sf ["previousValue", "previous_value"]))
        "newValue" (pickL sf ["newValue", "new_value"]))

/-- `if (nonce) out.nonce = nonce` — the value-change object is always
truthy when defined. -/
def setIfSomeJ (fs : List (String × JVal)) (k : String) (o : Option JVal) :
    List (String × JVal) :=
  match o with
  | some v => mapSet fs k v
  | none => fs

def normalizeStateChange (v : JVal) : Option JVal :=
  match asObj v with
  | none => none
  | some fs =>
      let out := setIfSomeJ fs "nonce" (normalizeValueChange (pickL fs ["nonce"]))
      let out := setIfSomeJ out "balance" (normalizeValueChange (pickL fs ["balance"]))
      let out :=
        match pickL fs ["storage"] with
        | .arr ss => mapSet out "storage" (.arr (ss.map normalizeStorageSlot))
        | _ => out
      some (.obj out)

def normalizeStateChanges (v : JVal) : Option (List JVal) :=
  match v with
  | .arr xs => some (xs.filterMap normalizeStateChange)
  | _ => none

def normalizeAssetInfo (v : JVal) : Option JVal :=
  match asObj v with
  | none => none
  | some fs =>
      let out := setIfDef fs "contractAddress" (pickL fs ["contractAddress", "contract_address"])
      let out := setIfDef out "dollarValue" (pickL fs ["dollarValue", "dollar_value"])
      some (.obj out)

def normalizeExposureChange (v : JVal) : Option JVal :=
  match asObj v with
  | none => none
  | some fs =>
      let out := setIfDef fs "rawAmount" (pickL fs ["rawAmount", "raw_amount"])
      let out := setIfDef out "dollarValue" (pickL fs ["dollarValue", "dollar_value"])
      let out := setIfSomeJ out "assetInfo" (normalizeAssetInfo (pickL fs ["assetInfo", "asset_info"]))
      some (.obj out)

def normalizeExposureChanges (v : JVal) : Option (List JVal) :=
  match v with
  | .arr xs => some (xs.filterMap normalizeExposureChange)
  | _ => none

def normalizeAssetChange (v : JVal) : Option JVal :=
  match asObj v with
  | none => none
  | some fs =>
      let out := setIfDef fs "rawAmount" (pickL fs ["rawAmount", "raw_amount"])
      let out := setIfDef out "dollarValue" (pickL fs ["dollarValue", "dollar_value"])
      let out := setIfSomeJ out "assetInfo" (normalizeAssetInfo (pickL fs ["assetInfo", "asset_info"]))
      some (.obj out)

def normalizeAssetChanges (v : JVal) : Option (List JVal) :=
  match v with
  | .arr xs => some (xs.filterMap normalizeAssetChange)
  | _ => none

def normalizeBalanceChange (v : JVal) : Option JVal :=
  match asObj v with
  | none => none
  | some fs =>
      some (.obj (setIfDef fs "dollarValue" (pickL fs ["dollarValue", "dollar_value"])))

def normalizeBalanceChanges (v : JVal) : Option (List JVal) :=
  match v with
  | .arr xs => some (xs.filterMap normalizeBalanceChange)
  | _ => none

/-- JSON-RPC envelope handling: when `result` is a plain object, merge
all sibling fields except `result`/`jsonrpc`/`id` into it, `result`'s
own fields first (so siblings take precedence on conflict). -/
def envelopeBase (p : List (String × JVal)) : List (String × JVal) :=
  if hasKey p "result" then
    match asObj (pickL p ["result"]) with
    | some r =>
        let extras := p.filter (fun kv => kv.1 ≠ "result" && kv.1 ≠ "jsonrpc" && kv.1 ≠ "id")
        extras.foldl (fun acc kv => mapSet acc kv.1 kv.2) r
    | none => p
  else p

def normalizeTenderlySimulateResult (payload : JVal) : Option JVal :=
  match asObj payload with
  | none => none
  | some p =>
      let base := envelopeBase p
      let tx := asObj (getk base "transaction")
      let sim := asObj (getk base "simulation")
      let txInfo := match tx with | some t => asObj (getk t "transaction_info") | none => none
      let simShared := match sim with | some s => asObj (getk s "shared") | none => none
      let gasUsed := jsOrJ (pickL base ["gasUsed", "gas_used"])
        (jsOrJ (optPick sim ["gasUsed", "gas_used"])
          (jsOrJ (optPick tx ["gasUsed", "gas_used"]) (optPick txInfo ["gasUsed", "gas_used"])))
      let out := setIfDef base "gasUsed" gasUsed
      let status := jsOrJ (pickL base ["status"])
        (jsOrJ (optPick sim ["status"]) (optPick tx ["status"]))
      let out := setIfDef out "status" status
      let errorMessage := jsOrJ (pickL base ["errorMessage", "error_message"])
        (jsOrJ (optPick sim ["errorMessage", "error_message"])
          (jsOrJ (optPick tx ["errorMessage", "error_message"])
            (optPick txInfo ["errorMessage", "error_message"])))
      let out := setIfDef out "errorMessage" errorMessage
      let traceSrc := jsOrJ (pickL base ["trace", "call_trace"])
        (jsOrJ (optPick tx ["trace", "call_trace"])
          (jsOrJ (optPick txInfo ["trace", "call_trace"]) (optPick simShared ["trace", "call_trace"])))
      let out := setIfSome out "trace" (normalizeTrace traceSrc)
      let logsSrc := jsOrJ (pickL base ["logs"])
        (jsOrJ (optPick tx ["logs"])
          (jsOrJ (optPick txInfo ["logs"]) (optPick simShared ["logs"])))
      let out := setIfSome out "logs" (normalizeLogs logsSrc)
      let stateChangesSrc := jsOrJ (pickL base ["stateChanges", "state_changes"])
        (jsOrJ (optPick simShared ["stateChanges", "state_changes"])
          (optPick txInfo ["stateChanges", "state_changes"]))
      let out := setIfSome out "stateChanges" (normalizeStateChanges stateChangesSrc)
      let assetChangesSrc := jsOrJ (pickL base ["assetChanges", "asset_changes"])
        (jsOrJ (optPick simShared ["assetChanges", "asset_changes"])
          (optPick txInfo ["assetChanges", "asset_changes"]))
      let out := setIfSome out "assetChanges" (normalizeAssetChanges assetChangesSrc)
      let exposureChangesSrc := jsOrJ (pickL base ["exposureChanges", "exposure_changes"])
        (jsOrJ (optPick simShared ["exposureChanges", "exposure_changes"])
          (optPick txInfo ["exposureChanges", "exposure_changes"]))
      let out := setIfSome out "exposureChanges" (normalizeExposureChanges exposureChangesSrc)
      let balanceChangesSrc := jsOrJ (pickL base ["balanceChanges", "balance_changes"])
        (jsOrJ (optPick simShared ["balanceChanges", "balance_changes"])
          (optPick txInfo ["balanceChanges", "balance_changes"]))
      let out := setIfSome out "balanceChanges" (normalizeBalanceChanges balanceChangesSrc)
      some (.obj out)

/-! ### C3: null exactly for non-record roots -/

/-- C3.  `normalize` returns `null` iff the root payload is not a plain
non-array object; every plain object yields a canonical result object. -/
theorem c3_null_iff_nonrecord (payload : JVal) :
    (normalizeTenderlySimulateResult payload = none ↔ isRecord payload = false)
    ∧ (isRecord payload = true →
        ∃ out, normalizeTenderlySimulateResult payload = some (.obj out)) := by
  cases payload with
  | obj fs =>
      constructor
      · constructor
        · intro h
          exact absurd h (by simp [normalizeTenderlySimulateResult, asObj])
        · intro h
          simp [isRecord] at h
      · intro _
        exact ⟨_, rfl⟩
  | undef => exact ⟨by simp [normalizeTenderlySimulateResult, asObj, isRecord], by simp [isRecord]⟩
  | jnull => exact ⟨by simp [normalizeTenderlySimulateResult, asObj, isRecord], by simp [isRecord]⟩
  | bool b => exact ⟨by simp [normalizeTenderlySimulateResult, asObj, isRecord], by simp [isRecord]⟩
  | num q => exact ⟨by simp [normalizeTenderlySimulateResult, asObj, isRecord], by simp [isRecord]⟩
  | str s => exact ⟨by simp [normalizeTenderlySimulateResult, asObj, isRecord], by simp [isRecord]⟩
  | arr xs => exact ⟨by simp [normalizeTenderlySimulateResult, asObj, isRecord], by simp [isRecord]⟩

theorem c3_null_iff_nonrecord_witness :
    (isRecord (JVal.obj []) = true
      ∧ ∃ out, normalizeTenderlySimulateResult (.obj []) = some (.obj out))
    ∧ (normalizeTenderlySimulateResult (.str "not an object") = none
      ↔ isRecord (.str "not an object") = false) :=
  ⟨⟨rfl, (c3_null_iff_nonrecord (.obj [])).2 rfl⟩,
   (c3_null_iff_nonrecord (.str "not an object")).1⟩

/-! ### getk laws for the conditional writes -/

theorem getk_mapSet_self (m : List (String × JVal)) (k : String) (v : JVal) :
    getk (mapSet m k v) k = v := by
  unfold getk
  rw [alookup_mapSet_self]
  rfl

theorem getk_mapSet_ne (m : List (String × JVal)) (k k' : String) (v : JVal)
    (h : k ≠ k') : getk (mapSet m k v) k' = getk m k' := by
  unfold getk
  rw [alookup_mapSet_ne _ _ _ _ h]

theorem getk_setIfDef_ne (m : List (String × JVal)) (k k' : String) (v : JVal)
    (h : k ≠ k') : getk (setIfDef m k v) k' = getk m k' := by
  unfold setIfDef
  cases v <;> first | rfl | exact getk_mapSet_ne _ _ _ _ h

theorem getk_setIfDef_of_ne_undef (m : List (String × JVal)) (k : String) (v : JVal)
    (h : v ≠ .undef) : getk (setIfDef m k v) k = v := by
  unfold setIfDef
  cases v <;> first | exact absurd rfl h | exact getk_mapSet_self _ _ _

theorem getk_setIfDef_of_undef (m : List (String × JVal)) (k : String) (v : JVal)
    (h : v = .undef) : getk (setIfDef m k v) k = getk m k := by
  subst h
  rfl

theorem getk_setIfSome_ne (m : List (String × JVal)) (k k' : String)
    (o : Option (List JVal)) (h : k ≠ k') : getk (setIfSome m k o) k' = getk m k' := by
  unfold setIfSome
  cases o with
  | none => rfl
  | some xs => exact getk_mapSet_ne _ _ _ _ h

theorem getk_setIfSome_of_some (m : List (String × JVal)) (k : String)
    (o : Option (List JVal)) (xs : List JVal) (h : o = some xs) :
    getk (setIfSome m k o) k = .arr xs := by
  subst h
  exact getk_mapSet_self _ _ _

theorem getk_setIfSome_of_none (m : List (String × JVal)) (k : String)
    (o : Option (List JVal)) (h : o = none) : getk (setIfSome m k o) k = getk m k := by
  subst h
  rfl

/-! ### C5: per-field search order -/

/-- The claim's uniform search: first non-undefined value over root,
`simulation`, `transaction`, `transaction.transaction_info`,
`simulation.shared` (stated from the spec for comparison). -/
def firstNonUndef : List JVal → JVal
  | [] => .undef
  | v :: vs =>
      match v with
      | .undef => firstNonUndef vs
      | _ => v

/-- Modelled from the spec's words for C5: the claimed uniform
five-location priority order, identical for every logical field. -/
def specFieldSearch (p : List (String × JVal)) (keys : List String) : JVal :=
  let sim := asObj (getk p "simulation")
  let tx := asObj (getk p "transaction")
  let txInfo := match tx with | some t => asObj (getk t "transaction_info") | none => none
  let simShared := match sim with | some s => asObj (getk s "shared") | none => none
  firstNonUndef [pickL p keys, optPick sim keys, optPick tx keys,
    optPick txInfo keys, optPick simShared keys]

def c5fs : List (String × JVal) :=
  [("transaction", .obj [("transaction_info", .obj [("state_changes", .arr [.obj [("x", .num 1)]])])]),
   ("simulation", .obj [("shared", .obj [("state_changes", .arr [.obj [("y", .num 2)]])])])]

/-- C5 counterexample: with `state_changes` present both under
`transaction.transaction_info` and `simulation.shared`, the claim's
order picks the former but the code stores the latter. -/
theorem c5_counterexample :
    ∃ out, normalizeTenderlySimulateResult (.obj c5fs) = some (.obj out)
      ∧ getk out "stateChanges" = .arr [.obj [("y", .num 2)]]
      ∧ specFieldSearch c5fs ["stateChanges", "state_changes"] = .arr [.obj [("x", .num 1)]]
      ∧ JVal.arr [.obj [("y", .num 2)]] ≠ .arr [.obj [("x", .num 1)]] := by
  refine ⟨_, rfl, rfl, rfl, ?_⟩
  intro h
  injection h with h1
  injection h1 with h2
  injection h2 with h3
  injection h3 with h4
  injection h4 with h5
  exact absurd h5 (by decide)

/-! The code's actual per-field location tables. -/

def simOf (base : List (String × JVal)) : Option (List (String × JVal)) :=
  asObj (getk base "simulation")

def txOf (base : List (String × JVal)) : Option (List (String × JVal)) :=
  asObj (getk base "transaction")

def txInfoOf (base : List (String × JVal)) : Option (List (String × JVal)) :=
  match txOf base with
  | some t => asObj (getk t "transaction_info")
  | none => none

def simSharedOf (base : List (String × JVal)) : Option (List (String × JVal)) :=
  match simOf base with
  | some s => asObj (getk s "shared")
  | none => none

/-- `a ?? b ?? c ?? …` over a location list. -/
def chainJ : List JVal → JVal
  | [] => .undef
  | [v] => v
  | v :: vs => jsOrJ v (chainJ vs)

def gasUsedSrc (base : List (String × JVal)) : JVal :=
  chainJ [pickL base ["gasUsed", "gas_used"],
    optPick (simOf base) ["gasUsed", "gas_used"],
    optPick (txOf base) ["gasUsed", "gas_used"],
    optPick (txInfoOf base) ["gasUsed", "gas_used"]]

def statusSrc (base : List (String × JVal)) : JVal :=
  chainJ [pickL base ["status"], optPick (simOf base) ["status"],
    optPick (txOf base) ["status"]]

def errorMessageSrc (base : List (String × JVal)) : JVal :=
  chainJ [pickL base ["errorMessage", "error_message"],
    optPick (simOf base) ["errorMessage", "error_message"],
    optPick (txOf base) ["errorMessage", "error_message"],
    optPick (txInfoOf base) ["errorMessage", "error_message"]]

/-- `trace` and `logs` skip `simulation` and fall back to
`transaction`, `transaction.transaction_info`, `simulation.shared`. -/
def traceLikeSrc (base : List (String × JVal)) (keys : List String) : JVal :=
  chainJ [pickL base keys, optPick (txOf base) keys,
    optPick (txInfoOf base) keys, optPick (simSharedOf base) keys]

/-- The four change families check `simulation.shared` *before*
`transaction.transaction_info` and skip `simulation`/`transaction`. -/
def changesSrc (base : List (String × JVal)) (keys : List String) : JVal :=
  chainJ [pickL base keys, optPick (simSharedOf base) keys,
    optPick (txInfoOf base) keys]

/-- The normalizer's output, re-expressed through the named per-field
source chains (definitional unfolding). -/
theorem normalize_obj_unfold (fs : List (String × JVal)) :
    normalizeTenderlySimulateResult (.obj fs) = some (.obj (
      setIfSome (setIfSome (setIfSome (setIfSome (setIfSome (setIfSome
        (setIfDef (setIfDef (setIfDef (envelopeBase fs)
          "gasUsed" (gasUsedSrc (envelopeBase fs)))
          "status" (statusSrc (envelopeBase fs)))
          "errorMessage" (errorMessageSrc (envelopeBase fs)))
        "trace" (normalizeTrace (traceLikeSrc (envelopeBase fs) ["trace", "call_trace"])))
        "logs" (normalizeLogs (traceLikeSrc (envelopeBase fs) ["logs"])))
        "stateChanges" (normalizeStateChanges (changesSrc (envelopeBase fs) ["stateChanges", "state_changes"])))
        "assetChanges" (normalizeAssetChanges (changesSrc (envelopeBase fs) ["assetChanges", "asset_changes"])))
        "exposureChanges" (normalizeExposureChanges (changesSrc (envelopeBase fs) ["exposureChanges", "exposure_changes"])))
        "balanceChanges" (normalizeBalanceChanges (changesSrc (envelopeBase fs) ["balanceChanges", "balance_changes"])))) := rfl

/-- C5 amended: each field follows its own location table —
`gasUsed`/`errorMessage`: root, simulation, transaction,
transaction_info; `status`: root, simulation, transaction;
`trace`/`logs`: root, transaction, transaction_info, simulation.shared;
the change families: root, simulation.shared, transaction_info — with
both spellings per location and `null` falling through like
`undefined`; raw fields keep the found value, array fields store the
element-normalized array, and an undefined chain leaves the field as it
was on the (envelope-merged) base object. -/
theorem c5_field_search_orders (fs : List (String × JVal)) :
    ∃ out, normalizeTenderlySimulateResult (.obj fs) = some (.obj out)
      ∧ ((gasUsedSrc (envelopeBase fs) ≠ .undef →
            getk out "gasUsed" = gasUsedSrc (envelopeBase fs))
        ∧ (gasUsedSrc (envelopeBase fs) = .undef →
            getk out "gasUsed" = getk (envelopeBase fs) "gasUsed"))
      ∧ ((statusSrc (envelopeBase fs) ≠ .undef →
            getk out "status" = statusSrc (envelopeBase fs))
        ∧ (statusSrc (envelopeBase fs) = .undef →
            getk out "status" = getk (envelopeBase fs) "status"))
      ∧ ((errorMessageSrc (envelopeBase fs) ≠ .undef →
            getk out "errorMessage" = errorMessageSrc (envelopeBase fs))
        ∧ (errorMessageSrc (envelopeBase fs) = .undef →
            getk out "errorMessage" = getk (envelopeBase fs) "errorMessage"))
      ∧ ((∀ xs, normalizeTrace (traceLikeSrc (envelopeBase fs) ["trace", "call_trace"]) = some xs →
            getk out "trace" = .arr xs)
        ∧ (normalizeTrace (traceLikeSrc (envelopeBase fs) ["trace", "call_trace"]) = none →
            getk out "trace" = getk (envelopeBase fs) "trace"))
      ∧ ((∀ xs, normalizeLogs (traceLikeSrc (envelopeBase fs) ["logs"]) = some xs →
            getk out "logs" = .arr xs)
        ∧ (normalizeLogs (traceLikeSrc (envelopeBase fs) ["logs"]) = none →
            getk out "logs" = getk (envelopeBase fs) "logs"))
      ∧ ((∀ xs, normalizeStateChanges (changesSrc (envelopeBase fs) ["stateChanges", "state_changes"]) = some xs →
            getk out "stateChanges" = .arr xs)
        ∧ (normalizeStateChanges (changesSrc (envelopeBase fs) ["stateChanges", "state_changes"]) = none →
            getk out "stateChanges" = getk (envelopeBase fs) "stateChanges"))
      ∧ ((∀ xs, normalizeAssetChanges (changesSrc (envelopeBase fs) ["assetChanges", "asset_changes"]) = some xs →
            getk out "assetChanges" = .arr xs)
        ∧ (normalizeAssetChanges (changesSrc (envelopeBase fs) ["assetChanges", "asset_changes"]) = none →
            getk out "assetChanges" = getk (envelopeBase fs) "assetChanges"))
      ∧ ((∀ xs, normalizeExposureChanges (changesSrc (envelopeBase fs) ["exposureChanges", "exposure_changes"]) = some xs →
            getk out "exposureChanges" = .arr xs)
        ∧ (normalizeExposureChanges (changesSrc (envelopeBase fs) ["exposureChanges", "exposure_changes"]) = none →
            getk out "exposureChanges" = getk (envelopeBase fs) "exposureChanges"))
      ∧ ((∀ xs, normalizeBalanceChanges (changesSrc (envelopeBase fs) ["balanceChanges", "balance_changes"]) = some xs →
            getk out "balanceChanges" = .arr xs)
        ∧ (normalizeBalanceChanges (changesSrc (envelopeBase fs) ["balanceChanges", "balance_changes"]) = none →
            getk out "balanceChanges" = getk (envelopeBase fs) "balanceChanges")) := by
  refine ⟨_, normalize_obj_unfold fs, ?_, ?_, ?_, ?_, ?_, ?_, ?_, ?_, ?_⟩
  · constructor
    · intro h
      simp only [getk_setIfSome_ne, getk_setIfDef_ne, ne_eq, String.reduceEq,
        not_false_eq_true]
      exact getk_setIfDef_of_ne_undef _ _ _ h
    · intro h
      simp only [getk_setIfSome_ne, getk_setIfDef_ne, ne_eq, String.reduceEq,
        not_false_eq_true]
      exact getk_setIfDef_of_undef _ _ _ h
  · constructor
    · intro h
      simp only [getk_setIfSome_ne, getk_setIfDef_ne, ne_eq, String.reduceEq,
        not_false_eq_true]
      exact getk_setIfDef_of_ne_undef _ _ _ h
    · intro h
      simp only [getk_setIfSome_ne, getk_setIfDef_ne, ne_eq, String.reduceEq,
        not_false_eq_true]
      rw [getk_setIfDef_of_undef _ _ _ h]
      simp only [getk_setIfDef_ne, ne_eq, String.reduceEq, not_false_eq_true]
  · constructor
    · intro h
      simp only [getk_setIfSome_ne, getk_setIfDef_ne, ne_eq, String.reduceEq,
        not_false_eq_true]
      exact getk_setIfDef_of_ne_undef _ _ _ h
    · intro h
      simp only [getk_setIfSome_ne, getk_setIfDef_ne, ne_eq, String.reduceEq,
        not_false_eq_true]
      rw [getk_setIfDef_of_undef _ _ _ h]
      simp only [getk_setIfDef_ne, ne_eq, String.reduceEq, not_false_eq_true]
  · constructor
    · intro xs h
      simp only [getk_setIfSome_ne, ne_eq, String.reduceEq, not_false_eq_true]
      exact getk_setIfSome_of_some _ _ _ _ h
    · intro h
      simp only [getk_setIfSome_ne, ne_eq, String.reduceEq, not_false_eq_true]
      rw [getk_setIfSome_of_none _ _ _ h]
      simp only [getk_setIfDef_ne, ne_eq, String.reduceEq, not_false_eq_true]
  · constructor
    · intro xs h
      simp only [getk_setIfSome_ne, ne_eq, String.reduceEq, not_false_eq_true]
      exact getk_setIfSome_of_some _ _ _ _ h
    · intro h
      simp only [getk_setIfSome_ne, ne_eq, String.reduceEq, not_false_eq_true]
      rw [getk_setIfSome_of_none _ _ _ h]
      simp only [getk_setIfSome_ne, getk_setIfDef_ne, ne_eq, String.reduceEq,
        not_false_eq_true]
  · constructor
    · intro xs h
      simp only [getk_setIfSome_ne, ne_eq, String.reduceEq, not_false_eq_true]
      exact getk_setIfSome_of_some _ _ _ _ h
    · intro h
      simp only [getk_setIfSome_ne, ne_eq, String.reduceEq, not_false_eq_true]
      rw [getk_setIfSome_of_none _ _ _ h]
      simp only [getk_setIfSome_ne, getk_setIfDef_ne, ne_eq, String.reduceEq,
        not_false_eq_true]
  · constructor
    · intro xs h
      simp only [getk_setIfSome_ne, ne_eq, String.reduceEq, not_false_eq_true]
      exact getk_setIfSome_of_some _ _ _ _ h
    · intro h
      simp only [getk_setIfSome_ne, ne_eq, String.reduceEq, not_false_eq_true]
      rw [getk_setIfSome_of_none _ _ _ h]
      simp only [getk_setIfSome_ne, getk_setIfDef_ne, ne_eq, String.reduceEq,
        not_false_eq_true]
  · constructor
    · intro xs h
      simp only [getk_setIfSome_ne, ne_eq, String.reduceEq, not_false_eq_true]
      exact getk_setIfSome_of_some _ _ _ _ h
    · intro h
      simp only [getk_setIfSome_ne, ne_eq, String.reduceEq, not_false_eq_true]
      rw [getk_setIfSome_of_none _ _ _ h]
      simp only [getk_setIfSome_ne, getk_setIfDef_ne, ne_eq, String.reduceEq,
        not_false_eq_true]
  · constructor
    · intro xs h
      exact getk_setIfSome_of_some _ _ _ _ h
    · intro h
      rw [getk_setIfSome_of_none _ _ _ h]
      simp only [getk_setIfSome_ne, getk_setIfDef_ne, ne_eq, String.reduceEq,
        not_false_eq_true]

/-- Witness: on `c5fs` the `stateChanges` chain finds
`simulation.shared.state_changes` (so the canonical field holds its
normalized elements), while the `gasUsed` chain is undefined and the
field stays whatever the base object had. -/
theorem c5_field_search_orders_witness :
    ∃ out, normalizeTenderlySimulateResult (.obj c5fs) = some (.obj out)
      ∧ getk out "stateChanges" = .arr [.obj [("y", .num 2)]]
      ∧ getk out "gasUsed" = getk (envelopeBase c5fs) "gasUsed" := by
  obtain ⟨out, he, hg, _, _, _, _, hsc, _, _, _⟩ := c5_field_search_orders c5fs
  refine ⟨out, he, ?_, ?_⟩
  · exact hsc.1 [.obj [("y", .num 2)]] rfl
  · exact hg.2 rfl

/-! ### C4: idempotence machinery.

`orUndef a b` is the value of `a !== undefined ? a : b`; both `pick`
and the conditional writes reduce to it, and idempotence of the
normalizer is a small algebra over it. -/

def orUndef (a b : JVal) : JVal :=
  match a with
  | .undef => b
  | _ => a

theorem orUndef_absorb (a b : JVal) : orUndef (orUndef a b) a = orUndef a b := by
  cases a <;> cases b <;> rfl

theorem orUndef_absorb2 (a b : JVal) : orUndef (orUndef a b) b = orUndef a b := by
  cases a <;> cases b <;> rfl

theorem pickL_nil (m : List (String × JVal)) : pickL m [] = .undef := rfl

theorem pickL_cons (m : List (String × JVal)) (k : String) (ks : List String) :
    pickL m (k :: ks) = orUndef (getk m k) (pickL m ks) := by
  cases hv : getk m k
  all_goals
    rw [show pickL m (k :: ks) = (match getk m k with | .undef => pickL m ks | v => v) from rfl, hv]
    rfl

theorem pickL_congr (m m' : List (String × JVal)) :
    ∀ (ks : List String), (∀ k ∈ ks, getk m k = getk m' k) → pickL m ks = pickL m' ks := by
  intro ks
  induction ks with
  | nil => intro _; rfl
  | cons k ks ih =>
      intro h
      rw [pickL_cons, pickL_cons, h k (List.mem_cons_self k ks),
        ih (fun x hx => h x (List.mem_cons_of_mem _ hx))]

theorem setIfDef_undef (m : List (String × JVal)) (k : String) :
    setIfDef m k .undef = m := rfl

theorem setIfSome_noneE (m : List (String × JVal)) (k : String) :
    setIfSome m k none = m := rfl

theorem setIfSome_someE (m : List (String × JVal)) (k : String) (xs : List JVal) :
    setIfSome m k (some xs) = mapSet m k (.arr xs) := rfl

theorem setIfSomeJ_noneE (m : List (String × JVal)) (k : String) :
    setIfSomeJ m k none = m := rfl

theorem setIfSomeJ_someE (m : List (String × JVal)) (k : String) (w : JVal) :
    setIfSomeJ m k (some w) = mapSet m k w := rfl

theorem getk_setIfDef (m : List (String × JVal)) (k : String) :
    ∀ (v : JVal), getk (setIfDef m k v) k = orUndef v (getk m k) := by
  intro v
  cases v
  case undef => rfl
  all_goals exact getk_mapSet_self _ _ _

theorem getk_setIfSomeJ_self (m : List (String × JVal)) (k : String) (w : JVal) :
    getk (setIfSomeJ m k (some w)) k = w := getk_mapSet_self _ _ _

theorem getk_setIfSomeJ_ne (m : List (String × JVal)) (k k' : String) (o : Option JVal)
    (h : k ≠ k') : getk (setIfSomeJ m k o) k' = getk m k' := by
  cases o with
  | none => rfl
  | some w => exact getk_mapSet_ne _ _ _ _ h

theorem alookup_eq_of_getk (m : List (String × JVal)) (k : String) (v : JVal)
    (hne : v ≠ JVal.undef) (h : getk m k = v) : alookup m k = some v := by
  unfold getk at h
  cases ha : alookup m k with
  | none => rw [ha] at h; exact absurd h.symm hne
  | some w => rw [ha] at h; exact congrArg some h

theorem setIfDef_stable (m : List (String × JVal)) (k : String) :
    ∀ (v : JVal), (v ≠ .undef → getk m k = v) → setIfDef m k v = m := by
  intro v h
  cases v
  case undef => rfl
  all_goals exact mapSet_alookup_self _ _ _ (alookup_eq_of_getk _ _ _ (by simp) (h (by simp)))

theorem setIfDef_getk_self (m : List (String × JVal)) (k : String) :
    setIfDef m k (getk m k) = m := by
  cases ha : alookup m k with
  | none =>
      have hg : getk m k = .undef := by unfold getk; rw [ha]; rfl
      rw [hg]
      rfl
  | some v =>
      have hg : getk m k = v := by unfold getk; rw [ha]; rfl
      rw [hg]
      exact setIfDef_stable _ _ _ (fun _ => hg)

theorem setIfSome_stable (m : List (String × JVal)) (k : String) (o : Option (List JVal))
    (h : ∀ xs, o = some xs → getk m k = .arr xs) : setIfSome m k o = m := by
  cases o with
  | none => rfl
  | some xs => exact mapSet_alookup_self _ _ _ (alookup_eq_of_getk _ _ _ (by simp) (h xs rfl))

theorem setIfSomeJ_stable (m : List (String × JVal)) (k : String) (o : Option JVal)
    (h : ∀ w, o = some w → w ≠ .undef ∧ getk m k = w) : setIfSomeJ m k o = m := by
  cases o with
  | none => rfl
  | some w => exact mapSet_alookup_self _ _ _ (alookup_eq_of_getk _ _ _ (h w rfl).1 (h w rfl).2)

theorem getk_setIfDef_congr (m m' : List (String × JVal)) (k : String) :
    ∀ (v : JVal), getk m k = getk m' k →
      getk (setIfDef m k v) k = getk (setIfDef m' k v) k := by
  intro v h
  cases v
  case undef => exact h
  all_goals rw [getk_setIfDef, getk_setIfDef, h]

theorem getk_setIfSome_congr (m m' : List (String × JVal)) (k : String)
    (o : Option (List JVal)) (h : getk m k = getk m' k) :
    getk (setIfSome m k o) k = getk (setIfSome m' k o) k := by
  cases o with
  | none => exact h
  | some xs => rw [getk_setIfSome_of_some _ _ _ xs rfl, getk_setIfSome_of_some _ _ _ xs rfl]

theorem getk_setIfSomeJ_congr (m m' : List (String × JVal)) (k : String)
    (o : Option JVal) (h : getk m k = getk m' k) :
    getk (setIfSomeJ m k o) k = getk (setIfSomeJ m' k o) k := by
  cases o with
  | none => exact h
  | some w => rw [getk_setIfSomeJ_self, getk_setIfSomeJ_self]

/-- A conditional write of `pick` back onto a map that already carries
the picked value is the identity. -/
theorem pick_setIfDef_stable (B OUT : List (String × JVal)) (k : String) (ks : List String)
    (hk : getk OUT k = pickL B (k :: ks))
    (hks : ∀ x ∈ ks, getk OUT x = getk B x) :
    setIfDef OUT k (pickL OUT (k :: ks)) = OUT := by
  have hp : pickL OUT (k :: ks) = getk OUT k := by
    rw [pickL_cons, hk, pickL_congr OUT B ks hks, pickL_cons]
    exact orUndef_absorb2 _ _
  rw [hp]
  exact setIfDef_getk_self _ _

theorem getk_setIfDef_pick (B : List (String × JVal)) (k : String) (ks : List String) :
    getk (setIfDef B k (pickL B (k :: ks))) k = pickL B (k :: ks) := by
  rw [getk_setIfDef, pickL_cons]
  exact orUndef_absorb _ _

/-- Re-running an element-wise array normalization over a picked-and-
written field is the identity, given element idempotence. -/
theorem pick_setIfSome_arr_stable (B OUT : List (String × JVal)) (k : String)
    (ks : List String) (normArr : JVal → Option (List JVal))
    (hnorm : ∀ v xs, normArr v = some xs → normArr (.arr xs) = some xs)
    (hk : getk OUT k = getk (setIfSome B k (normArr (pickL B (k :: ks)))) k)
    (hks : ∀ x ∈ ks, getk OUT x = getk B x) :
    setIfSome OUT k (normArr (pickL OUT (k :: ks))) = OUT := by
  cases ho : normArr (pickL B (k :: ks)) with
  | none =>
      rw [ho, setIfSome_noneE] at hk
      have hall : ∀ x ∈ (k :: ks), getk OUT x = getk B x := by
        intro x hx
        rcases List.mem_cons.mp hx with hx | hx
        · subst hx; exact hk
        · exact hks x hx
      rw [pickL_congr OUT B (k :: ks) hall, ho, setIfSome_noneE]
  | some xs =>
      rw [ho, setIfSome_someE, getk_mapSet_self] at hk
      have hp : pickL OUT (k :: ks) = .arr xs := by
        rw [pickL_cons, hk]
        rfl
      rw [hp, hnorm _ _ ho]
      exact setIfSome_stable _ _ _ (fun ys hys => by
        injection hys with h2
        rw [← h2]
        exact hk)

theorem pick_setIfSomeJ_stable (B OUT : List (String × JVal)) (k : String)
    (ks : List String) (normO : JVal → Option JVal)
    (hnorm : ∀ v w, normO v = some w → normO w = some w)
    (hund : ∀ v w, normO v = some w → w ≠ .undef)
    (hk : getk OUT k = getk (setIfSomeJ B k (normO (pickL B (k :: ks)))) k)
    (hks : ∀ x ∈ ks, getk OUT x = getk B x) :
    setIfSomeJ OUT k (normO (pickL OUT (k :: ks))) = OUT := by
  cases ho : normO (pickL B (k :: ks)) with
  | none =>
      rw [ho, setIfSomeJ_noneE] at hk
      have hall : ∀ x ∈ (k :: ks), getk OUT x = getk B x := by
        intro x hx
        rcases List.mem_cons.mp hx with hx | hx
        · subst hx; exact hk
        · exact hks x hx
      rw [pickL_congr OUT B (k :: ks) hall, ho, setIfSomeJ_noneE]
  | some w =>
      rw [ho, setIfSomeJ_someE, getk_mapSet_self] at hk
      have hp : pickL OUT (k :: ks) = w := by
        rw [pickL_cons, hk]
        cases w
        case undef => exact absurd rfl (hund _ _ ho)
        all_goals rfl
      rw [hp, hnorm _ _ ho]
      exact setIfSomeJ_stable _ _ _ (fun u hu => by
        injection hu with h2
        exact ⟨h2 ▸ hund _ _ ho, hk.trans h2⟩)

theorem filterMap_idem (f : JVal → Option JVal)
    (hf : ∀ v w, f v = some w → f w = some w) :
    ∀ (ys : List JVal), (ys.filterMap f).filterMap f = ys.filterMap f := by
  intro ys
  induction ys with
  | nil => rfl
  | cons y ys ih =>
      cases hy : f y with
      | none => simp only [List.filterMap_cons, hy, ih]
      | some w => simp only [List.filterMap_cons, hy, hf y w hy, ih]

theorem jsOrJ_arr (xs : List JVal) (b : JVal) : jsOrJ (.arr xs) b = .arr xs := rfl

/-- The absorbed form of a `pick`-headed `??` chain re-run over the map
that already received the chain's value: the raw-field stability core. -/
theorem jsOr_stable_core (g p r : JVal) :
    jsOrJ (orUndef (orUndef (jsOrJ (orUndef g p) r) g) p) r = jsOrJ (orUndef g p) r := by
  cases g <;> cases p <;> cases r <;> rfl

theorem rawSrc_stable (B OUT : List (String × JVal)) (k : String) (ks : List String)
    (rest : JVal)
    (hk : getk OUT k = getk (setIfDef B k (jsOrJ (pickL B (k :: ks)) rest)) k)
    (hks : ∀ x ∈ ks, getk OUT x = getk B x) :
    jsOrJ (pickL OUT (k :: ks)) rest = jsOrJ (pickL B (k :: ks)) rest := by
  rw [pickL_cons, hk, getk_setIfDef, pickL_congr OUT B ks hks, pickL_cons]
  exact jsOr_stable_core _ _ _

/-! Idempotence of the element normalizers. Each `…Out` definition names
the object the corresponding normalizer builds for a record input. -/

def ndpOut (fs : List (String × JVal)) : List (String × JVal) :=
  setIfDef fs "indexed" (pickL fs ["indexed", "is_indexed"])

theorem ndp_obj (fs : List (String × JVal)) :
    normalizeDecodedParam (.obj fs) = some (.obj (ndpOut fs)) := rfl

theorem ndpOut_stable (fs : List (String × JVal)) : ndpOut (ndpOut fs) = ndpOut fs := by
  show setIfDef (ndpOut fs) "indexed" (pickL (ndpOut fs) ["indexed", "is_indexed"]) = ndpOut fs
  refine pick_setIfDef_stable fs (ndpOut fs) "indexed" ["is_indexed"] ?_ ?_
  · exact getk_setIfDef_pick fs "indexed" ["is_indexed"]
  · intro x hx
    simp only [List.mem_singleton] at hx
    subst hx
    show getk (setIfDef fs "indexed" (pickL fs ["indexed", "is_indexed"])) "is_indexed"
      = getk fs "is_indexed"
    simp only [getk_setIfDef_ne, ne_eq, String.reduceEq, not_false_eq_true]

theorem normalizeDecodedParam_idem :
    ∀ v w, normalizeDecodedParam v = some w → normalizeDecodedParam w = some w := by
  intro v w h
  cases v
  case obj fs =>
    rw [ndp_obj] at h
    injection h with h2
    subst h2
    rw [ndp_obj, ndpOut_stable]
  all_goals exact Option.noConfusion h

theorem ndps_arr (xs : List JVal) :
    normalizeDecodedParams (.arr xs) = some (xs.filterMap normalizeDecodedParam) := rfl

theorem normalizeDecodedParams_idem :
    ∀ v xs, normalizeDecodedParams v = some xs → normalizeDecodedParams (.arr xs) = some xs := by
  intro v xs h
  cases v
  case arr ys =>
    rw [ndps_arr] at h
    injection h with h2
    subst h2
    rw [ndps_arr, filterMap_idem _ normalizeDecodedParam_idem]
  all_goals exact Option.noConfusion h

def nlogOut (fs : List (String × JVal)) : List (String × JVal) :=
  setIfDef (setIfSome fs "inputs" (normalizeDecodedParams (pickL fs ["inputs", "decoded_inputs"])))
    "raw" (pickL fs ["raw", "raw_log"])

theorem nlog_obj (fs : List (String × JVal)) :
    normalizeLog (.obj fs) = some (.obj (nlogOut fs)) := rfl

theorem nlogOut_stable (fs : List (String × JVal)) : nlogOut (nlogOut fs) = nlogOut fs := by
  have e1 : setIfSome (nlogOut fs) "inputs"
      (normalizeDecodedParams (pickL (nlogOut fs) ["inputs", "decoded_inputs"])) = nlogOut fs := by
    refine pick_setIfSome_arr_stable fs (nlogOut fs) "inputs" ["decoded_inputs"]
      normalizeDecodedParams normalizeDecodedParams_idem ?_ ?_
    · unfold nlogOut
      simp only [getk_setIfDef_ne, ne_eq, String.reduceEq, not_false_eq_true]
    · intro x hx
      simp only [List.mem_singleton] at hx
      subst hx
      unfold nlogOut
      simp only [getk_setIfDef_ne, getk_setIfSome_ne, ne_eq, String.reduceEq, not_false_eq_true]
  have e2 : setIfDef (nlogOut fs) "raw" (pickL (nlogOut fs) ["raw", "raw_log"]) = nlogOut fs := by
    refine pick_setIfDef_stable fs (nlogOut fs) "raw" ["raw_log"] ?_ ?_
    · unfold nlogOut
      rw [getk_setIfDef]
      simp only [getk_setIfSome_ne, ne_eq, String.reduceEq, not_false_eq_true]
      rw [pickL_cons]
      exact orUndef_absorb _ _
    · intro x hx
      simp only [List.mem_singleton] at hx
      subst hx
      unfold nlogOut
      simp only [getk_setIfDef_ne, getk_setIfSome_ne, ne_eq, String.reduceEq, not_false_eq_true]
  show setIfDef (setIfSome (nlogOut fs) "inputs"
      (normalizeDecodedParams (pickL (nlogOut fs) ["inputs", "decoded_inputs"])))
    "raw" (pickL (nlogOut fs) ["raw", "raw_log"]) = nlogOut fs
  rw [e1, e2]

theorem normalizeLog_idem :
    ∀ v w, normalizeLog v = some w → normalizeLog w = some w := by
  intro v w h
  cases v
  case obj fs =>
    rw [nlog_obj] at h
    injection h with h2
    subst h2
    rw [nlog_obj, nlogOut_stable]
  all_goals exact Option.noConfusion h

def nssOut (sf : List (String × JVal)) : List (String × JVal) :=
  setIfDef (setIfDef sf "previousValue" (pickL sf ["previousValue", "previous_value"]))
    "newValue" (pickL sf ["newValue", "new_value"])

theorem nss_obj (sf : List (String × JVal)) :
    normalizeStorageSlot (.obj sf) = .obj (nssOut sf) := rfl

theorem nssOut_stable (sf : List (String × JVal)) : nssOut (nssOut sf) = nssOut sf := by
  have e1 : setIfDef (nssOut sf) "previousValue"
      (pickL (nssOut sf) ["previousValue", "previous_value"]) = nssOut sf := by
    refine pick_setIfDef_stable sf (nssOut sf) "previousValue" ["previous_value"] ?_ ?_
    · unfold nssOut
      simp only [getk_setIfDef_ne, ne_eq, String.reduceEq, not_false_eq_true]
      exact getk_setIfDef_pick sf "previousValue" ["previous_value"]
    · intro x hx
      simp only [List.mem_singleton] at hx
      subst hx
      unfold nssOut
      simp only [getk_setIfDef_ne, ne_eq, String.reduceEq, not_false_eq_true]
  have e2 : setIfDef (nssOut sf) "newValue"
      (pickL (nssOut sf) ["newValue", "new_value"]) = nssOut sf := by
    refine pick_setIfDef_stable sf (nssOut sf) "newValue" ["new_value"] ?_ ?_
    · unfold nssOut
      rw [getk_setIfDef]
      simp only [getk_setIfDef_ne, ne_eq, String.reduceEq, not_false_eq_true]
      rw [pickL_cons]
      exact orUndef_absorb _ _
    · intro x hx
      simp only [List.mem_singleton] at hx
      subst hx
      unfold nssOut
      simp only [getk_setIfDef_ne, ne_eq, String.reduceEq, not_false_eq_true]
  show setIfDef (setIfDef (nssOut sf) "previousValue"
      (pickL (nssOut sf) ["previousValue", "previous_value"]))
    "newValue" (pickL (nssOut sf) ["newValue", "new_value"]) = nssOut sf
  rw [e1, e2]

theorem normalizeStorageSlot_idem (s : JVal) :
    normalizeStorageSlot (normalizeStorageSlot s) = normalizeStorageSlot s := by
  cases s
  case obj sf => rw [nss_obj, nss_obj, nssOut_stable]
  all_goals rfl

theorem map_nss_idem (l : List JVal) :
    (l.map normalizeStorageSlot).map normalizeStorageSlot = l.map normalizeStorageSlot := by
  induction l with
  | nil => rfl
  | cons a l ih => simp only [List.map_cons, normalizeStorageSlot_idem, ih]

theorem normalizeValueChange_idem :
    ∀ v w, normalizeValueChange v = some w → normalizeValueChange w = some w := by
  intro v w h
  cases v
  case obj fs =>
    revert h
    simp only [normalizeValueChange, asObj]
    cases hpv : pickL fs ["previousValue", "previous_value"] <;>
      cases hnv : pickL fs ["newValue", "new_value"] <;>
        intro h <;>
          first
            | exact Option.noConfusion h
            | (injection h with h2; subst h2; rfl)
  all_goals exact Option.noConfusion h

theorem normalizeValueChange_ne_undef :
    ∀ v w, normalizeValueChange v = some w → w ≠ .undef := by
  intro v w h
  cases v
  case obj fs =>
    revert h
    simp only [normalizeValueChange, asObj]
    cases hpv : pickL fs ["previousValue", "previous_value"] <;>
      cases hnv : pickL fs ["newValue", "new_value"] <;>
        intro h <;>
          first
            | exact Option.noConfusion h
            | (injection h with h2; rw [← h2]; simp)
  all_goals exact Option.noConfusion h

def naiOut (fs : List (String × JVal)) : List (String × JVal) :=
  setIfDef (setIfDef fs "contractAddress" (pickL fs ["contractAddress", "contract_address"]))
    "dollarValue" (pickL fs ["dollarValue", "dollar_value"])

theorem nai_obj (fs : List (String × JVal)) :
    normalizeAssetInfo (.obj fs) = some (.obj (naiOut fs)) := rfl

theorem naiOut_stable (fs : List (String × JVal)) : naiOut (naiOut fs) = naiOut fs := by
  have e1 : setIfDef (naiOut fs) "contractAddress"
      (pickL (naiOut fs) ["contractAddress", "contract_address"]) = naiOut fs := by
    refine pick_setIfDef_stable fs (naiOut fs) "contractAddress" ["contract_address"] ?_ ?_
    · unfold naiOut
      simp only [getk_setIfDef_ne, ne_eq, String.reduceEq, not_false_eq_true]
      exact getk_setIfDef_pick fs "contractAddress" ["contract_address"]
    · intro x hx
      simp only [List.mem_singleton] at hx
      subst hx
      unfold naiOut
      simp only [getk_setIfDef_ne, ne_eq, String.reduceEq, not_false_eq_true]
  have e2 : setIfDef (naiOut fs) "dollarValue"
      (pickL (naiOut fs) ["dollarValue", "dollar_value"]) = naiOut fs := by
    refine pick_setIfDef_stable fs (naiOut fs) "dollarValue" ["dollar_value"] ?_ ?_
    · unfold naiOut
      rw [getk_setIfDef]
      simp only [getk_setIfDef_ne, ne_eq, String.reduceEq, not_false_eq_true]
      rw [pickL_cons]
      exact orUndef_absorb _ _
    · intro x hx
      simp only [List.mem_singleton] at hx
      subst hx
      unfold naiOut
      simp only [getk_setIfDef_ne, ne_eq, String.reduceEq, not_false_eq_true]
  show setIfDef (setIfDef (naiOut fs) "contractAddress"
      (pickL (naiOut fs) ["contractAddress", "contract_address"]))
    "dollarValue" (pickL (naiOut fs) ["dollarValue", "dollar_value"]) = naiOut fs
  rw [e1, e2]

theorem normalizeAssetInfo_idem :
    ∀ v w, normalizeAssetInfo v = some w → normalizeAssetInfo w = some w := by
  intro v w h
  cases v
  case obj fs =>
    rw [nai_obj] at h
    injection h with h2
    subst h2
    rw [nai_obj, naiOut_stable]
  all_goals exact Option.noConfusion h

theorem normalizeAssetInfo_ne_undef :
    ∀ v w, normalizeAssetInfo v = some w → w ≠ .undef := by
  intro v w h
  cases v
  case obj fs =>
    rw [nai_obj] at h
    injection h with h2
    rw [← h2]
    simp
  all_goals exact Option.noConfusion h

def nbcOut (fs : List (String × JVal)) : List (String × JVal) :=
  setIfDef fs "dollarValue" (pickL fs ["dollarValue", "dollar_value"])

theorem nbc_obj (fs : List (String × JVal)) :
    normalizeBalanceChange (.obj fs) = some (.obj (nbcOut fs)) := rfl

theorem nbcOut_stable (fs : List (String × JVal)) : nbcOut (nbcOut fs) = nbcOut fs := by
  show setIfDef (nbcOut fs) "dollarValue" (pickL (nbcOut fs) ["dollarValue", "dollar_value"])
    = nbcOut fs
  refine pick_setIfDef_stable fs (nbcOut fs) "dollarValue" ["dollar_value"] ?_ ?_
  · exact getk_setIfDef_pick fs "dollarValue" ["dollar_value"]
  · intro x hx
    simp only [List.mem_singleton] at hx
    subst hx
    show getk (setIfDef fs "dollarValue" (pickL fs ["dollarValue", "dollar_value"])) "dollar_value"
      = getk fs "dollar_value"
    simp only [getk_setIfDef_ne, ne_eq, String.reduceEq, not_false_eq_true]

theorem normalizeBalanceChange_idem :
    ∀ v w, normalizeBalanceChange v = some w → normalizeBalanceChange w = some w := by
  intro v w h
  cases v
  case obj fs =>
    rw [nbc_obj] at h
    injection h with h2
    subst h2
    rw [nbc_obj, nbcOut_stable]
  all_goals exact Option.noConfusion h

def nteOut (fs : List (String × JVal)) : List (String × JVal) :=
  setIfSome (setIfSome
    (setIfDef (setIfDef fs "gasUsed" (pickL fs ["gasUsed", "gas_used"]))
      "traceAddress" (pickL fs ["traceAddress", "trace_address"]))
    "decodedInput" (normalizeDecodedParams (pickL fs ["decodedInput", "decoded_input"])))
    "decodedOutput" (normalizeDecodedParams (pickL fs ["decodedOutput", "decoded_output"]))

theorem nte_obj (fs : List (String × JVal)) :
    normalizeTraceEntry (.obj fs) = some (.obj (nteOut fs)) := rfl

theorem nteOut_stable (fs : List (String × JVal)) : nteOut (nteOut fs) = nteOut fs := by
  have e1 : setIfDef (nteOut fs) "gasUsed" (pickL (nteOut fs) ["gasUsed", "gas_used"])
      = nteOut fs := by
    refine pick_setIfDef_stable fs (nteOut fs) "gasUsed" ["gas_used"] ?_ ?_
    · unfold nteOut
      simp only [getk_setIfSome_ne, getk_setIfDef_ne, ne_eq, String.reduceEq, not_false_eq_true]
      exact getk_setIfDef_pick fs "gasUsed" ["gas_used"]
    · intro x hx
      simp only [List.mem_singleton] at hx
      subst hx
      unfold nteOut
      simp only [getk_setIfSome_ne, getk_setIfDef_ne, ne_eq, String.reduceEq, not_false_eq_true]
  have e2 : setIfDef (nteOut fs) "traceAddress" (pickL (nteOut fs) ["traceAddress", "trace_address"])
      = nteOut fs := by
    refine pick_setIfDef_stable fs (nteOut fs) "traceAddress" ["trace_address"] ?_ ?_
    · unfold nteOut
      simp only [getk_setIfSome_ne, ne_eq, String.reduceEq, not_false_eq_true]
      rw [getk_setIfDef]
      simp only [getk_setIfDef_ne, ne_eq, String.reduceEq, not_false_eq_true]
      rw [pickL_cons]
      exact orUndef_absorb _ _
    · intro x hx
      simp only [List.mem_singleton] at hx
      subst hx
      unfold nteOut
      simp only [getk_setIfSome_ne, getk_setIfDef_ne, ne_eq, String.reduceEq, not_false_eq_true]
  have e3 : setIfSome (nteOut fs) "decodedInput"
      (normalizeDecodedParams (pickL (nteOut fs) ["decodedInput", "decoded_input"])) = nteOut fs := by
    refine pick_setIfSome_arr_stable fs (nteOut fs) "decodedInput" ["decoded_input"]
      normalizeDecodedParams normalizeDecodedParams_idem ?_ ?_
    · unfold nteOut
      simp only [getk_setIfSome_ne, ne_eq, String.reduceEq, not_false_eq_true]
      exact getk_setIfSome_congr _ _ _ _ (by
        simp only [getk_setIfDef_ne, ne_eq, String.reduceEq, not_false_eq_true])
    · intro x hx
      simp only [List.mem_singleton] at hx
      subst hx
      unfold nteOut
      simp only [getk_setIfSome_ne, getk_setIfDef_ne, ne_eq, String.reduceEq, not_false_eq_true]
  have e4 : setIfSome (nteOut fs) "decodedOutput"
      (normalizeDecodedParams (pickL (nteOut fs) ["decodedOutput", "decoded_output"])) = nteOut fs := by
    refine pick_setIfSome_arr_stable fs (nteOut fs) "decodedOutput" ["decoded_output"]
      normalizeDecodedParams normalizeDecodedParams_idem ?_ ?_
    · unfold nteOut
      exact getk_setIfSome_congr _ _ _ _ (by
        simp only [getk_setIfSome_ne, getk_setIfDef_ne, ne_eq, String.reduceEq, not_false_eq_true])
    · intro x hx
      simp only [List.mem_singleton] at hx
      subst hx
      unfold nteOut
      simp only [getk_setIfSome_ne, getk_setIfDef_ne, ne_eq, String.reduceEq, not_false_eq_true]
  show setIfSome (setIfSome
      (setIfDef (setIfDef (nteOut fs) "gasUsed" (pickL (nteOut fs) ["gasUsed", "gas_used"]))
        "traceAddress" (pickL (nteOut fs) ["traceAddress", "trace_address"]))
      "decodedInput" (normalizeDecodedParams (pickL (nteOut fs) ["decodedInput", "decoded_input"])))
      "decodedOutput" (normalizeDecodedParams (pickL (nteOut fs) ["decodedOutput", "decoded_output"]))
    = nteOut fs
  rw [e1, e2, e3, e4]

theorem normalizeTraceEntry_idem :
    ∀ v w, normalizeTraceEntry v = some w → normalizeTraceEntry w = some w := by
  intro v w h
  cases v
  case obj fs =>
    rw [nte_obj] at h
    injection h with h2
    subst h2
    rw [nte_obj, nteOut_stable]
  all_goals exact Option.noConfusion h

def necOut (fs : List (String × JVal)) : List (String × JVal) :=
  setIfSomeJ (setIfDef (setIfDef fs "rawAmount" (pickL fs ["rawAmount", "raw_amount"]))
      "dollarValue" (pickL fs ["dollarValue", "dollar_value"]))
    "assetInfo" (normalizeAssetInfo (pickL fs ["assetInfo", "asset_info"]))

theorem nec_obj (fs : List (String × JVal)) :
    normalizeExposureChange (.obj fs) = some (.obj (necOut fs)) := rfl

theorem nac_obj (fs : List (String × JVal)) :
    normalizeAssetChange (.obj fs) = some (.obj (necOut fs)) := rfl

theorem necOut_stable (fs : List (String × JVal)) : necOut (necOut fs) = necOut fs := by
  have e1 : setIfDef (necOut fs) "rawAmount" (pickL (necOut fs) ["rawAmount", "raw_amount"])
      = necOut fs := by
    refine pick_setIfDef_stable fs (necOut fs) "rawAmount" ["raw_amount"] ?_ ?_
    · unfold necOut
      simp only [getk_setIfSomeJ_ne, getk_setIfDef_ne, ne_eq, String.reduceEq, not_false_eq_true]
      exact getk_setIfDef_pick fs "rawAmount" ["raw_amount"]
    · intro x hx
      simp only [List.mem_singleton] at hx
      subst hx
      unfold necOut
      simp only [getk_setIfSomeJ_ne, getk_setIfDef_ne, ne_eq, String.reduceEq, not_false_eq_true]
  have e2 : setIfDef (necOut fs) "dollarValue" (pickL (necOut fs) ["dollarValue", "dollar_value"])
      = necOut fs := by
    refine pick_setIfDef_stable fs (necOut fs) "dollarValue" ["dollar_value"] ?_ ?_
    · unfold necOut
      simp only [getk_setIfSomeJ_ne, ne_eq, String.reduceEq, not_false_eq_true]
      rw [getk_setIfDef]
      simp only [getk_setIfDef_ne, ne_eq, String.reduceEq, not_false_eq_true]
      rw [pickL_cons]
      exact orUndef_absorb _ _
    · intro x hx
      simp only [List.mem_singleton] at hx
      subst hx
      unfold necOut
      simp only [getk_setIfSomeJ_ne, getk_setIfDef_ne, ne_eq, String.reduceEq, not_false_eq_true]
  have e3 : setIfSomeJ (necOut fs) "assetInfo"
      (normalizeAssetInfo (pickL (necOut fs) ["assetInfo", "asset_info"])) = necOut fs := by
    refine pick_setIfSomeJ_stable fs (necOut fs) "assetInfo" ["asset_info"]
      normalizeAssetInfo normalizeAssetInfo_idem normalizeAssetInfo_ne_undef ?_ ?_
    · unfold necOut
      exact getk_setIfSomeJ_congr _ _ _ _ (by
        simp only [getk_setIfDef_ne, ne_eq, String.reduceEq, not_false_eq_true])
    · intro x hx
      simp only [List.mem_singleton] at hx
      subst hx
      unfold necOut
      simp only [getk_setIfSomeJ_ne, getk_setIfDef_ne, ne_eq, String.reduceEq, not_false_eq_true]
  show setIfSomeJ (setIfDef (setIfDef (necOut fs) "rawAmount" (pickL (necOut fs) ["rawAmount", "raw_amount"]))
      "dollarValue" (pickL (necOut fs) ["dollarValue", "dollar_value"]))
    "assetInfo" (normalizeAssetInfo (pickL (necOut fs) ["assetInfo", "asset_info"])) = necOut fs
  rw [e1, e2, e3]

theorem normalizeExposureChange_idem :
    ∀ v w, normalizeExposureChange v = some w → normalizeExposureChange w = some w := by
  intro v w h
  cases v
  case obj fs =>
    rw [nec_obj] at h
    injection h with h2
    subst h2
    rw [nec_obj, necOut_stable]
  all_goals exact Option.noConfusion h

theorem normalizeAssetChange_idem :
    ∀ v w, normalizeAssetChange v = some w → normalizeAssetChange w = some w := by
  intro v w h
  cases v
  case obj fs =>
    rw [nac_obj] at h
    injection h with h2
    subst h2
    rw [nac_obj, necOut_stable]
  all_goals exact Option.noConfusion h

def nscCore (fs : List (String × JVal)) : List (String × JVal) :=
  setIfSomeJ (setIfSomeJ fs "nonce" (normalizeValueChange (pickL fs ["nonce"])))
    "balance" (normalizeValueChange (pickL fs ["balance"]))

def nscOut (fs : List (String × JVal)) : List (String × JVal) :=
  match pickL fs ["storage"] with
  | .arr ss => mapSet (nscCore fs) "storage" (.arr (ss.map normalizeStorageSlot))
  | _ => nscCore fs

theorem nsc_obj (fs : List (String × JVal)) :
    normalizeStateChange (.obj fs) = some (.obj (nscOut fs)) := by
  simp only [normalizeStateChange, asObj, nscOut, nscCore]

theorem getk_nscOut_ne (fs : List (String × JVal)) (k' : String) (h : k' ≠ "storage") :
    getk (nscOut fs) k' = getk (nscCore fs) k' := by
  simp only [nscOut]
  cases pickL fs ["storage"] <;> first | rfl | exact getk_mapSet_ne _ _ _ _ (Ne.symm h)

theorem nscOut_nonce_stable (fs : List (String × JVal)) :
    setIfSomeJ (nscOut fs) "nonce" (normalizeValueChange (pickL (nscOut fs) ["nonce"]))
      = nscOut fs := by
  refine pick_setIfSomeJ_stable fs (nscOut fs) "nonce" []
    normalizeValueChange normalizeValueChange_idem normalizeValueChange_ne_undef ?_ ?_
  · rw [getk_nscOut_ne fs "nonce" (by decide)]
    unfold nscCore
    simp only [getk_setIfSomeJ_ne, ne_eq, String.reduceEq, not_false_eq_true]
  · intro x hx
    exact absurd hx (List.not_mem_nil x)

theorem nscOut_balance_stable (fs : List (String × JVal)) :
    setIfSomeJ (nscOut fs) "balance" (normalizeValueChange (pickL (nscOut fs) ["balance"]))
      = nscOut fs := by
  refine pick_setIfSomeJ_stable fs (nscOut fs) "balance" []
    normalizeValueChange normalizeValueChange_idem normalizeValueChange_ne_undef ?_ ?_
  · rw [getk_nscOut_ne fs "balance" (by decide)]
    unfold nscCore
    exact getk_setIfSomeJ_congr _ _ _ _ (by
      simp only [getk_setIfSomeJ_ne, ne_eq, String.reduceEq, not_false_eq_true])
  · intro x hx
    exact absurd hx (List.not_mem_nil x)

theorem nscOut_core_stable (fs : List (String × JVal)) : nscCore (nscOut fs) = nscOut fs := by
  show setIfSomeJ (setIfSomeJ (nscOut fs) "nonce" (normalizeValueChange (pickL (nscOut fs) ["nonce"])))
    "balance" (normalizeValueChange (pickL (nscOut fs) ["balance"])) = nscOut fs
  rw [nscOut_nonce_stable, nscOut_balance_stable]

theorem nscOut_stable (fs : List (String × JVal)) : nscOut (nscOut fs) = nscOut fs := by
  cases hst : pickL fs ["storage"]
  case arr ss =>
    have hsts : getk (nscOut fs) "storage" = .arr (ss.map normalizeStorageSlot) := by
      simp only [nscOut, hst, getk_mapSet_self]
    have hp2 : pickL (nscOut fs) ["storage"] = .arr (ss.map normalizeStorageSlot) := by
      rw [pickL_cons, hsts]
      rfl
    conv_lhs => rw [nscOut.eq_def]
    simp only [hp2]
    rw [map_nss_idem, nscOut_core_stable]
    exact mapSet_alookup_self _ _ _ (alookup_eq_of_getk _ _ _ (by simp) hsts)
  all_goals (
    have hout : nscOut fs = nscCore fs := by simp only [nscOut, hst]
    have hp2 : pickL (nscOut fs) ["storage"] = pickL fs ["storage"] := by
      rw [pickL_cons, pickL_cons, pickL_nil, pickL_nil, hout]
      unfold nscCore
      simp only [getk_setIfSomeJ_ne, ne_eq, String.reduceEq, not_false_eq_true]
    conv_lhs => rw [nscOut.eq_def]
    simp only [hp2, hst]
    exact nscOut_core_stable fs)

theorem normalizeStateChange_idem :
    ∀ v w, normalizeStateChange v = some w → normalizeStateChange w = some w := by
  intro v w h
  cases v
  case obj fs =>
    rw [nsc_obj] at h
    injection h with h2
    subst h2
    rw [nsc_obj, nscOut_stable]
  all_goals exact Option.noConfusion h

/-! Array-level idempotence of the element-wise normalizers. -/

theorem normalizeTrace_idem (v : JVal) (xs : List JVal)
    (h : normalizeTrace v = some xs) : normalizeTrace (.arr xs) = some xs := by
  cases v
  case arr ys =>
    injection h with h2
    subst h2
    show some ((ys.filterMap normalizeTraceEntry).filterMap normalizeTraceEntry) = _
    rw [filterMap_idem _ normalizeTraceEntry_idem]
  all_goals exact Option.noConfusion h

theorem normalizeLogs_idem (v : JVal) (xs : List JVal)
    (h : normalizeLogs v = some xs) : normalizeLogs (.arr xs) = some xs := by
  cases v
  case arr ys =>
    injection h with h2
    subst h2
    show some ((ys.filterMap normalizeLog).filterMap normalizeLog) = _
    rw [filterMap_idem _ normalizeLog_idem]
  all_goals exact Option.noConfusion h

theorem normalizeStateChanges_idem (v : JVal) (xs : List JVal)
    (h : normalizeStateChanges v = some xs) : normalizeStateChanges (.arr xs) = some xs := by
  cases v
  case arr ys =>
    injection h with h2
    subst h2
    show some ((ys.filterMap normalizeStateChange).filterMap normalizeStateChange) = _
    rw [filterMap_idem _ normalizeStateChange_idem]
  all_goals exact Option.noConfusion h

theorem normalizeAssetChanges_idem (v : JVal) (xs : List JVal)
    (h : normalizeAssetChanges v = some xs) : normalizeAssetChanges (.arr xs) = some xs := by
  cases v
  case arr ys =>
    injection h with h2
    subst h2
    show some ((ys.filterMap normalizeAssetChange).filterMap normalizeAssetChange) = _
    rw [filterMap_idem _ normalizeAssetChange_idem]
  all_goals exact Option.noConfusion h

theorem normalizeExposureChanges_idem (v : JVal) (xs : List JVal)
    (h : normalizeExposureChanges v = some xs) : normalizeExposureChanges (.arr xs) = some xs := by
  cases v
  case arr ys =>
    injection h with h2
    subst h2
    show some ((ys.filterMap normalizeExposureChange).filterMap normalizeExposureChange) = _
    rw [filterMap_idem _ normalizeExposureChange_idem]
  all_goals exact Option.noConfusion h

theorem normalizeBalanceChanges_idem (v : JVal) (xs : List JVal)
    (h : normalizeBalanceChanges v = some xs) : normalizeBalanceChanges (.arr xs) = some xs := by
  cases v
  case arr ys =>
    injection h with h2
    subst h2
    show some ((ys.filterMap normalizeBalanceChange).filterMap normalizeBalanceChange) = _
    rw [filterMap_idem _ normalizeBalanceChange_idem]
  all_goals exact Option.noConfusion h

/-- The canonical object the normalizer builds for an object payload. -/
def normOut (p : List (String × JVal)) : List (String × JVal) :=
  setIfSome (setIfSome (setIfSome (setIfSome (setIfSome (setIfSome
    (setIfDef (setIfDef (setIfDef (envelopeBase p)
      "gasUsed" (gasUsedSrc (envelopeBase p)))
      "status" (statusSrc (envelopeBase p)))
      "errorMessage" (errorMessageSrc (envelopeBase p)))
    "trace" (normalizeTrace (traceLikeSrc (envelopeBase p) ["trace", "call_trace"])))
    "logs" (normalizeLogs (traceLikeSrc (envelopeBase p) ["logs"])))
    "stateChanges" (normalizeStateChanges (changesSrc (envelopeBase p) ["stateChanges", "state_changes"])))
    "assetChanges" (normalizeAssetChanges (changesSrc (envelopeBase p) ["assetChanges", "asset_changes"])))
    "exposureChanges" (normalizeExposureChanges (changesSrc (envelopeBase p) ["exposureChanges", "exposure_changes"])))
    "balanceChanges" (normalizeBalanceChanges (changesSrc (envelopeBase p) ["balanceChanges", "balance_changes"]))

theorem normalize_eq_normOut (fs : List (String × JVal)) :
    normalizeTenderlySimulateResult (.obj fs) = some (.obj (normOut fs)) := rfl

theorem getk_normOut_ne (fs : List (String × JVal)) (k' : String)
    (h1 : k' ≠ "gasUsed") (h2 : k' ≠ "status") (h3 : k' ≠ "errorMessage")
    (h4 : k' ≠ "trace") (h5 : k' ≠ "logs") (h6 : k' ≠ "stateChanges")
    (h7 : k' ≠ "assetChanges") (h8 : k' ≠ "exposureChanges") (h9 : k' ≠ "balanceChanges") :
    getk (normOut fs) k' = getk (envelopeBase fs) k' := by
  unfold normOut
  rw [getk_setIfSome_ne _ _ _ _ h9.symm, getk_setIfSome_ne _ _ _ _ h8.symm,
    getk_setIfSome_ne _ _ _ _ h7.symm, getk_setIfSome_ne _ _ _ _ h6.symm,
    getk_setIfSome_ne _ _ _ _ h5.symm, getk_setIfSome_ne _ _ _ _ h4.symm,
    getk_setIfDef_ne _ _ _ _ h3.symm, getk_setIfDef_ne _ _ _ _ h2.symm,
    getk_setIfDef_ne _ _ _ _ h1.symm]

theorem getk_normOut_gasUsed (fs : List (String × JVal)) :
    getk (normOut fs) "gasUsed"
      = getk (setIfDef (envelopeBase fs) "gasUsed" (gasUsedSrc (envelopeBase fs))) "gasUsed" := by
  unfold normOut
  simp only [getk_setIfSome_ne, getk_setIfDef_ne, ne_eq, String.reduceEq, not_false_eq_true]

theorem getk_normOut_status (fs : List (String × JVal)) :
    getk (normOut fs) "status"
      = getk (setIfDef (envelopeBase fs) "status" (statusSrc (envelopeBase fs))) "status" := by
  unfold normOut
  simp only [getk_setIfSome_ne, getk_setIfDef_ne, ne_eq, String.reduceEq, not_false_eq_true]
  exact getk_setIfDef_congr _ _ _ _ (by
    simp only [getk_setIfDef_ne, ne_eq, String.reduceEq, not_false_eq_true])

theorem getk_normOut_errorMessage (fs : List (String × JVal)) :
    getk (normOut fs) "errorMessage"
      = getk (setIfDef (envelopeBase fs) "errorMessage" (errorMessageSrc (envelopeBase fs)))
          "errorMessage" := by
  unfold normOut
  simp only [getk_setIfSome_ne, getk_setIfDef_ne, ne_eq, String.reduceEq, not_false_eq_true]
  exact getk_setIfDef_congr _ _ _ _ (by
    simp only [getk_setIfDef_ne, ne_eq, String.reduceEq, not_false_eq_true])

theorem getk_normOut_trace (fs : List (String × JVal)) :
    getk (normOut fs) "trace"
      = getk (setIfSome (envelopeBase fs) "trace"
          (normalizeTrace (traceLikeSrc (envelopeBase fs) ["trace", "call_trace"]))) "trace" := by
  unfold normOut
  simp only [getk_setIfSome_ne, ne_eq, String.reduceEq, not_false_eq_true]
  exact getk_setIfSome_congr _ _ _ _ (by
    simp only [getk_setIfDef_ne, ne_eq, String.reduceEq, not_false_eq_true])

theorem getk_normOut_logs (fs : List (String × JVal)) :
    getk (normOut fs) "logs"
      = getk (setIfSome (envelopeBase fs) "logs"
          (normalizeLogs (traceLikeSrc (envelopeBase fs) ["logs"]))) "logs" := by
  unfold normOut
  simp only [getk_setIfSome_ne, ne_eq, String.reduceEq, not_false_eq_true]
  exact getk_setIfSome_congr _ _ _ _ (by
    simp only [getk_setIfSome_ne, getk_setIfDef_ne, ne_eq, String.reduceEq, not_false_eq_true])

theorem getk_normOut_stateChanges (fs : List (String × JVal)) :
    getk (normOut fs) "stateChanges"
      = getk (setIfSome (envelopeBase fs) "stateChanges"
          (normalizeStateChanges (changesSrc (envelopeBase fs) ["stateChanges", "state_changes"])))
          "stateChanges" := by
  unfold normOut
  simp only [getk_setIfSome_ne, ne_eq, String.reduceEq, not_false_eq_true]
  exact getk_setIfSome_congr _ _ _ _ (by
    simp only [getk_setIfSome_ne, getk_setIfDef_ne, ne_eq, String.reduceEq, not_false_eq_true])

theorem getk_normOut_assetChanges (fs : List (String × JVal)) :
    getk (normOut fs) "assetChanges"
      = getk (setIfSome (envelopeBase fs) "assetChanges"
          (normalizeAssetChanges (changesSrc (envelopeBase fs) ["assetChanges", "asset_changes"])))
          "assetChanges" := by
  unfold normOut
  simp only [getk_setIfSome_ne, ne_eq, String.reduceEq, not_false_eq_true]
  exact getk_setIfSome_congr _ _ _ _ (by
    simp only [getk_setIfSome_ne, getk_setIfDef_ne, ne_eq, String.reduceEq, not_false_eq_true])

theorem getk_normOut_exposureChanges (fs : List (String × JVal)) :
    getk (normOut fs) "exposureChanges"
      = getk (setIfSome (envelopeBase fs) "exposureChanges"
          (normalizeExposureChanges (changesSrc (envelopeBase fs) ["exposureChanges", "exposure_changes"])))
          "exposureChanges" := by
  unfold normOut
  simp only [getk_setIfSome_ne, ne_eq, String.reduceEq, not_false_eq_true]
  exact getk_setIfSome_congr _ _ _ _ (by
    simp only [getk_setIfSome_ne, getk_setIfDef_ne, ne_eq, String.reduceEq, not_false_eq_true])

theorem getk_normOut_balanceChanges (fs : List (String × JVal)) :
    getk (normOut fs) "balanceChanges"
      = getk (setIfSome (envelopeBase fs) "balanceChanges"
          (normalizeBalanceChanges (changesSrc (envelopeBase fs) ["balanceChanges", "balance_changes"])))
          "balanceChanges" := by
  unfold normOut
  exact getk_setIfSome_congr _ _ _ _ (by
    simp only [getk_setIfSome_ne, getk_setIfDef_ne, ne_eq, String.reduceEq, not_false_eq_true])

theorem asObj_pickL_result (m : List (String × JVal)) :
    asObj (pickL m ["result"]) = asObj (getk m "result") := by
  rw [pickL_cons, pickL_nil]
  cases getk m "result" <;> rfl

theorem envelopeBase_eq_self (p : List (String × JVal))
    (h : asObj (getk p "result") = none) : envelopeBase p = p := by
  unfold envelopeBase
  cases hk : hasKey p "result" <;> simp [hk, asObj_pickL_result, h]

theorem simOf_normOut (fs : List (String × JVal)) :
    simOf (normOut fs) = simOf (envelopeBase fs) := by
  unfold simOf
  rw [getk_normOut_ne fs "simulation" (by decide) (by decide) (by decide) (by decide)
    (by decide) (by decide) (by decide) (by decide) (by decide)]

theorem txOf_normOut (fs : List (String × JVal)) :
    txOf (normOut fs) = txOf (envelopeBase fs) := by
  unfold txOf
  rw [getk_normOut_ne fs "transaction" (by decide) (by decide) (by decide) (by decide)
    (by decide) (by decide) (by decide) (by decide) (by decide)]

theorem txInfoOf_normOut (fs : List (String × JVal)) :
    txInfoOf (normOut fs) = txInfoOf (envelopeBase fs) := by
  unfold txInfoOf
  rw [txOf_normOut]

theorem simSharedOf_normOut (fs : List (String × JVal)) :
    simSharedOf (normOut fs) = simSharedOf (envelopeBase fs) := by
  unfold simSharedOf
  rw [simOf_normOut]

theorem gasUsedSrc_eq (base : List (String × JVal)) :
    gasUsedSrc base = jsOrJ (pickL base ["gasUsed", "gas_used"])
      (jsOrJ (optPick (simOf base) ["gasUsed", "gas_used"])
        (jsOrJ (optPick (txOf base) ["gasUsed", "gas_used"])
          (optPick (txInfoOf base) ["gasUsed", "gas_used"]))) := rfl

theorem statusSrc_eq (base : List (String × JVal)) :
    statusSrc base = jsOrJ (pickL base ["status"])
      (jsOrJ (optPick (simOf base) ["status"]) (optPick (txOf base) ["status"])) := rfl

theorem errorMessageSrc_eq (base : List (String × JVal)) :
    errorMessageSrc base = jsOrJ (pickL base ["errorMessage", "error_message"])
      (jsOrJ (optPick (simOf base) ["errorMessage", "error_message"])
        (jsOrJ (optPick (txOf base) ["errorMessage", "error_message"])
          (optPick (txInfoOf base) ["errorMessage", "error_message"]))) := rfl

theorem traceLikeSrc_eq (base : List (String × JVal)) (keys : List String) :
    traceLikeSrc base keys = jsOrJ (pickL base keys)
      (jsOrJ (optPick (txOf base) keys)
        (jsOrJ (optPick (txInfoOf base) keys) (optPick (simSharedOf base) keys))) := rfl

theorem changesSrc_eq (base : List (String × JVal)) (keys : List String) :
    changesSrc base keys = jsOrJ (pickL base keys)
      (jsOrJ (optPick (simSharedOf base) keys) (optPick (txInfoOf base) keys)) := rfl

theorem gasUsedSrc_normOut (fs : List (String × JVal)) :
    gasUsedSrc (normOut fs) = gasUsedSrc (envelopeBase fs) := by
  rw [gasUsedSrc_eq, gasUsedSrc_eq, simOf_normOut, txOf_normOut, txInfoOf_normOut]
  refine rawSrc_stable (envelopeBase fs) (normOut fs) "gasUsed" ["gas_used"] _ ?_ ?_
  · rw [getk_normOut_gasUsed, gasUsedSrc_eq]
  · intro x hx
    simp only [List.mem_singleton] at hx
    subst hx
    exact getk_normOut_ne fs "gas_used" (by decide) (by decide) (by decide) (by decide)
      (by decide) (by decide) (by decide) (by decide) (by decide)

theorem statusSrc_normOut (fs : List (String × JVal)) :
    statusSrc (normOut fs) = statusSrc (envelopeBase fs) := by
  rw [statusSrc_eq, statusSrc_eq, simOf_normOut, txOf_normOut]
  refine rawSrc_stable (envelopeBase fs) (normOut fs) "status" [] _ ?_ ?_
  · rw [getk_normOut_status, statusSrc_eq]
  · intro x hx
    exact absurd hx (List.not_mem_nil x)

theorem errorMessageSrc_normOut (fs : List (String × JVal)) :
    errorMessageSrc (normOut fs) = errorMessageSrc (envelopeBase fs) := by
  rw [errorMessageSrc_eq, errorMessageSrc_eq, simOf_normOut, txOf_normOut, txInfoOf_normOut]
  refine rawSrc_stable (envelopeBase fs) (normOut fs) "errorMessage" ["error_message"] _ ?_ ?_
  · rw [getk_normOut_errorMessage, errorMessageSrc_eq]
  · intro x hx
    simp only [List.mem_singleton] at hx
    subst hx
    exact getk_normOut_ne fs "error_message" (by decide) (by decide) (by decide) (by decide)
      (by decide) (by decide) (by decide) (by decide) (by decide)

/-- If the merged base object does not itself hold an object under
`result`, re-normalizing the normalizer's output is the identity. -/
theorem normOut_stable (fs : List (String × JVal))
    (h : asObj (getk (envelopeBase fs) "result") = none) :
    normOut (normOut fs) = normOut fs := by
  have hE : envelopeBase (normOut fs) = normOut fs :=
    envelopeBase_eq_self _ (by
      rw [getk_normOut_ne fs "result" (by decide) (by decide) (by decide) (by decide)
        (by decide) (by decide) (by decide) (by decide) (by decide)]
      exact h)
  have e1 : setIfDef (normOut fs) "gasUsed" (gasUsedSrc (normOut fs)) = normOut fs := by
    rw [gasUsedSrc_normOut]
    exact setIfDef_stable _ _ _ (fun hne => by
      rw [getk_normOut_gasUsed]
      exact getk_setIfDef_of_ne_undef _ _ _ hne)
  have e2 : setIfDef (normOut fs) "status" (statusSrc (normOut fs)) = normOut fs := by
    rw [statusSrc_normOut]
    exact setIfDef_stable _ _ _ (fun hne => by
      rw [getk_normOut_status]
      exact getk_setIfDef_of_ne_undef _ _ _ hne)
  have e3 : setIfDef (normOut fs) "errorMessage" (errorMessageSrc (normOut fs)) = normOut fs := by
    rw [errorMessageSrc_normOut]
    exact setIfDef_stable _ _ _ (fun hne => by
      rw [getk_normOut_errorMessage]
      exact getk_setIfDef_of_ne_undef _ _ _ hne)
  have e4 : setIfSome (normOut fs) "trace"
      (normalizeTrace (traceLikeSrc (normOut fs) ["trace", "call_trace"])) = normOut fs := by
    cases ho : normalizeTrace (traceLikeSrc (envelopeBase fs) ["trace", "call_trace"]) with
    | some xs =>
        have hgt : getk (normOut fs) "trace" = .arr xs := by
          rw [getk_normOut_trace, ho]
          exact getk_setIfSome_of_some _ _ _ _ rfl
        have hsrc : traceLikeSrc (normOut fs) ["trace", "call_trace"] = .arr xs := by
          rw [traceLikeSrc_eq, pickL_cons, hgt]
          rfl
        rw [hsrc, normalizeTrace_idem _ _ ho]
        exact setIfSome_stable _ _ _ (fun ys hys => by
          injection hys with h2
          rw [← h2]
          exact hgt)
    | none =>
        have hgt : getk (normOut fs) "trace" = getk (envelopeBase fs) "trace" := by
          rw [getk_normOut_trace, ho, setIfSome_noneE]
        have hall : ∀ x ∈ ["trace", "call_trace"],
            getk (normOut fs) x = getk (envelopeBase fs) x := by
          intro x hx
          rcases List.mem_cons.mp hx with hx | hx
          · subst hx; exact hgt
          · simp only [List.mem_singleton] at hx
            subst hx
            exact getk_normOut_ne fs "call_trace" (by decide) (by decide) (by decide) (by decide)
              (by decide) (by decide) (by decide) (by decide) (by decide)
        have hsrc : traceLikeSrc (normOut fs) ["trace", "call_trace"]
            = traceLikeSrc (envelopeBase fs) ["trace", "call_trace"] := by
          rw [traceLikeSrc_eq, traceLikeSrc_eq, txOf_normOut, txInfoOf_normOut,
            simSharedOf_normOut, pickL_congr _ _ _ hall]
        rw [hsrc, ho]
        rfl
  have e5 : setIfSome (normOut fs) "logs"
      (normalizeLogs (traceLikeSrc (normOut fs) ["logs"])) = normOut fs := by
    cases ho : normalizeLogs (traceLikeSrc (envelopeBase fs) ["logs"]) with
    | some xs =>
        have hgt : getk (normOut fs) "logs" = .arr xs := by
          rw [getk_normOut_logs, ho]
          exact getk_setIfSome_of_some _ _ _ _ rfl
        have hsrc : traceLikeSrc (normOut fs) ["logs"] = .arr xs := by
          rw [traceLikeSrc_eq, pickL_cons, hgt]
          rfl
        rw [hsrc, normalizeLogs_idem _ _ ho]
        exact setIfSome_stable _ _ _ (fun ys hys => by
          injection hys with h2
          rw [← h2]
          exact hgt)
    | none =>
        have hgt : getk (normOut fs) "logs" = getk (envelopeBase fs) "logs" := by
          rw [getk_normOut_logs, ho, setIfSome_noneE]
        have hall : ∀ x ∈ ["logs"], getk (normOut fs) x = getk (envelopeBase fs) x := by
          intro x hx
          simp only [List.mem_singleton] at hx
          subst hx
          exact hgt
        have hsrc : traceLikeSrc (normOut fs) ["logs"]
            = traceLikeSrc (envelopeBase fs) ["logs"] := by
          rw [traceLikeSrc_eq, traceLikeSrc_eq, txOf_normOut, txInfoOf_normOut,
            simSharedOf_normOut, pickL_congr _ _ _ hall]
        rw [hsrc, ho]
        rfl
  have e6 : setIfSome (normOut fs) "stateChanges"
      (normalizeStateChanges (changesSrc (normOut fs) ["stateChanges", "state_changes"]))
      = normOut fs := by
    cases ho : normalizeStateChanges (changesSrc (envelopeBase fs) ["stateChanges", "state_changes"]) with
    | some xs =>
        have hgt : getk (normOut fs) "stateChanges" = .arr xs := by
          rw [getk_normOut_stateChanges, ho]
          exact getk_setIfSome_of_some _ _ _ _ rfl
        have hsrc : changesSrc (normOut fs) ["stateChanges", "state_changes"] = .arr xs := by
          rw [changesSrc_eq, pickL_cons, hgt]
          rfl
        rw [hsrc, normalizeStateChanges_idem _ _ ho]
        exact setIfSome_stable _ _ _ (fun ys hys => by
          injection hys with h2
          rw [← h2]
          exact hgt)
    | none =>
        have hgt : getk (normOut fs) "stateChanges" = getk (envelopeBase fs) "stateChanges" := by
          rw [getk_normOut_stateChanges, ho, setIfSome_noneE]
        have hall : ∀ x ∈ ["stateChanges", "state_changes"],
            getk (normOut fs) x = getk (envelopeBase fs) x := by
          intro x hx
          rcases List.mem_cons.mp hx with hx | hx
          · subst hx; exact hgt
          · simp only [List.mem_singleton] at hx
            subst hx
            exact getk_normOut_ne fs "state_changes" (by decide) (by decide) (by decide) (by decide)
              (by decide) (by decide) (by decide) (by decide) (by decide)
        have hsrc : changesSrc (normOut fs) ["stateChanges", "state_changes"]
            = changesSrc (envelopeBase fs) ["stateChanges", "state_changes"] := by
          rw [changesSrc_eq, changesSrc_eq, simSharedOf_normOut, txInfoOf_normOut,
            pickL_congr _ _ _ hall]
        rw [hsrc, ho]
        rfl
  have e7 : setIfSome (normOut fs) "assetChanges"
      (normalizeAssetChanges (changesSrc (normOut fs) ["assetChanges", "asset_changes"]))
      = normOut fs := by
    cases ho : normalizeAssetChanges (changesSrc (envelopeBase fs) ["assetChanges", "asset_changes"]) with
    | some xs =>
        have hgt : getk (normOut fs) "assetChanges" = .arr xs := by
          rw [getk_normOut_assetChanges, ho]
          exact getk_setIfSome_of_some _ _ _ _ rfl
        have hsrc : changesSrc (normOut fs) ["assetChanges", "asset_changes"] = .arr xs := by
          rw [changesSrc_eq, pickL_cons, hgt]
          rfl
        rw [hsrc, normalizeAssetChanges_idem _ _ ho]
        exact setIfSome_stable _ _ _ (fun ys hys => by
          injection hys with h2
          rw [← h2]
          exact hgt)
    | none =>
        have hgt : getk (normOut fs) "assetChanges" = getk (envelopeBase fs) "assetChanges" := by
          rw [getk_normOut_assetChanges, ho, setIfSome_noneE]
        have hall : ∀ x ∈ ["assetChanges", "asset_changes"],
            getk (normOut fs) x = getk (envelopeBase fs) x := by
          intro x hx
          rcases List.mem_cons.mp hx with hx | hx
          · subst hx; exact hgt
          · simp only [List.mem_singleton] at hx
            subst hx
            exact getk_normOut_ne fs "asset_changes" (by decide) (by decide) (by decide) (by decide)
              (by decide) (by decide) (by decide) (by decide) (by decide)
        have hsrc : changesSrc (normOut fs) ["assetChanges", "asset_changes"]
            = changesSrc (envelopeBase fs) ["assetChanges", "asset_changes"] := by
          rw [changesSrc_eq, changesSrc_eq, simSharedOf_normOut, txInfoOf_normOut,
            pickL_congr _ _ _ hall]
        rw [hsrc, ho]
        rfl
  have e8 : setIfSome (normOut fs) "exposureChanges"
      (normalizeExposureChanges (changesSrc (normOut fs) ["exposureChanges", "exposure_changes"]))
      = normOut fs := by
    cases ho : normalizeExposureChanges (changesSrc (envelopeBase fs) ["exposureChanges", "exposure_changes"]) with
    | some xs =>
        have hgt : getk (normOut fs) "exposureChanges" = .arr xs := by
          rw [getk_normOut_exposureChanges, ho]
          exact getk_setIfSome_of_some _ _ _ _ rfl
        have hsrc : changesSrc (normOut fs) ["exposureChanges", "exposure_changes"] = .arr xs := by
          rw [changesSrc_eq, pickL_cons, hgt]
          rfl
        rw [hsrc, normalizeExposureChanges_idem _ _ ho]
        exact setIfSome_stable _ _ _ (fun ys hys => by
          injection hys with h2
          rw [← h2]
          exact hgt)
    | none =>
        have hgt : getk (normOut fs) "exposureChanges"
            = getk (envelopeBase fs) "exposureChanges" := by
          rw [getk_normOut_exposureChanges, ho, setIfSome_noneE]
        have hall : ∀ x ∈ ["exposureChanges", "exposure_changes"],
            getk (normOut fs) x = getk (envelopeBase fs) x := by
          intro x hx
          rcases List.mem_cons.mp hx with hx | hx
          · subst hx; exact hgt
          · simp only [List.mem_singleton] at hx
            subst hx
            exact getk_normOut_ne fs "exposure_changes" (by decide) (by decide) (by decide)
              (by decide) (by decide) (by decide) (by decide) (by decide) (by decide)
        have hsrc : changesSrc (normOut fs) ["exposureChanges", "exposure_changes"]
            = changesSrc (envelopeBase fs) ["exposureChanges", "exposure_changes"] := by
          rw [changesSrc_eq, changesSrc_eq, simSharedOf_normOut, txInfoOf_normOut,
            pickL_congr _ _ _ hall]
        rw [hsrc, ho]
        rfl
  have e9 : setIfSome (normOut fs) "balanceChanges"
      (normalizeBalanceChanges (changesSrc (normOut fs) ["balanceChanges", "balance_changes"]))
      = normOut fs := by
    cases ho : normalizeBalanceChanges (changesSrc (envelopeBase fs) ["balanceChanges", "balance_changes"]) with
    | some xs =>
        have hgt : getk (normOut fs) "balanceChanges" = .arr xs := by
          rw [getk_normOut_balanceChanges, ho]
          exact getk_setIfSome_of_some _ _ _ _ rfl
        have hsrc : changesSrc (normOut fs) ["balanceChanges", "balance_changes"] = .arr xs := by
          rw [changesSrc_eq, pickL_cons, hgt]
          rfl
        rw [hsrc, normalizeBalanceChanges_idem _ _ ho]
        exact setIfSome_stable _ _ _ (fun ys hys => by
          injection hys with h2
          rw [← h2]
          exact hgt)
    | none =>
        have hgt : getk (normOut fs) "balanceChanges"
            = getk (envelopeBase fs) "balanceChanges" := by
          rw [getk_normOut_balanceChanges, ho, setIfSome_noneE]
        have hall : ∀ x ∈ ["balanceChanges", "balance_changes"],
            getk (normOut fs) x = getk (envelopeBase fs) x := by
          intro x hx
          rcases List.mem_cons.mp hx with hx | hx
          · subst hx; exact hgt
          · simp only [List.mem_singleton] at hx
            subst hx
            exact getk_normOut_ne fs "balance_changes" (by decide) (by decide) (by decide)
              (by decide) (by decide) (by decide) (by decide) (by decide) (by decide)
        have hsrc : changesSrc (normOut fs) ["balanceChanges", "balance_changes"]
            = changesSrc (envelopeBase fs) ["balanceChanges", "balance_changes"] := by
          rw [changesSrc_eq, changesSrc_eq, simSharedOf_normOut, txInfoOf_normOut,
            pickL_congr _ _ _ hall]
        rw [hsrc, ho]
        rfl
  conv_lhs => rw [normOut.eq_def]
  rw [hE, e1, e2, e3, e4, e5, e6, e7, e8, e9]

/-- C4 counterexample: for the nested envelope `{result: {result: {}}}`
the normalizer unwraps one envelope level per call, so the second
application strips the surviving inner `result` and the output is not a
fixed point. -/
theorem c4_counterexample :
    ∃ y, normalizeTenderlySimulateResult (.obj [("result", .obj [("result", .obj [])])]) = some y
      ∧ normalizeTenderlySimulateResult y ≠ some y := by
  refine ⟨.obj [("result", .obj ([] : List (String × JVal)))], rfl, ?_⟩
  intro hc
  rw [show normalizeTenderlySimulateResult (.obj [("result", .obj ([] : List (String × JVal)))])
      = some (.obj ([] : List (String × JVal))) from rfl] at hc
  injection hc with h1
  injection h1 with h2
  exact List.noConfusion h2

/-- C4 amended: the normalizer is idempotent on accepted object payloads
whose envelope-merged base does not itself carry a plain object under
`result` — i.e. unless the payload is a nested JSON-RPC envelope, whose
extra level is unwrapped by the second pass. -/
theorem c4_idempotent_unless_nested (fs : List (String × JVal))
    (h : asObj (getk (envelopeBase fs) "result") = none) :
    ∃ out, normalizeTenderlySimulateResult (.obj fs) = some out
      ∧ normalizeTenderlySimulateResult out = some out := by
  refine ⟨.obj (normOut fs), normalize_eq_normOut fs, ?_⟩
  rw [normalize_eq_normOut (normOut fs), normOut_stable fs h]

/-- Witness: a plain payload with no `result` envelope normalizes to a
fixed point of the normalizer. -/
theorem c4_idempotent_unless_nested_witness :
    ∃ out, normalizeTenderlySimulateResult (.obj [("gasUsed", JVal.num 5)]) = some out
      ∧ normalizeTenderlySimulateResult out = some out :=
  c4_idempotent_unless_nested [("gasUsed", .num 5)] rfl

end ExecOnchain
